import Mathlib

/-!
Verification of the OpenImageIO tiled image cache
(`src/libtexture/imagecache.cpp`) against its natural-language
specification.  The C++ data structures and operations are shallowly
embedded: machine integers become `Int`/`Nat` with explicit wrapping where
overflow matters, the `std::map`s with their clock-sweep iterators become
pairs of lists (`prev` = entries already passed by the sweep cursor in the
current cycle, `next` = entries at or after the cursor; the map contents in
iteration order are `prev ++ next`), and calls into the external reader
plugin layer become explicit oracle parameters.  All definitions are
executable; the possibly non-terminating eviction loops are fuel-indexed.
-/

namespace ImageCacheProof

/-! ## Configuration attributes (`ImageCacheImpl::attribute`, C10)

`attribute("max_memory_MB", ...)` executes
`m_max_memory_bytes = (int)(size * 1024 * 1024);` where `size` is a
`float` (for the INT-typed call the int value is first converted to
float; integers of magnitude below 2^24 convert exactly, and multiplying
by the power of two 2^20 is again exact, so for the integer sizes
considered here the float pipeline computes the mathematical product
`size * 2^20`).  The final cast to the 32-bit signed `int` is modelled,
following the claim under scrutiny, as two's-complement reduction modulo
2^32. -/

/-- Two's-complement reduction of an integer into the signed 32-bit range
`[-2^31, 2^31)`. -/
def wrap32 (n : Int) : Int :=
  (n + 2 ^ 31) % 2 ^ 32 - 2 ^ 31

/-- Model of `ImageCacheImpl::attribute ("max_memory_MB", TypeDesc::INT, &size)`:
the stored byte ceiling `m_max_memory_bytes = (int)(size * 1024 * 1024)`. -/
def set_max_memory_bytes (size : Int) : Int :=
  wrap32 (size * 1048576)

/-! ## Auto-MIP spec synthesis (`ImageCacheFile::open`, C2)

For a single-subimage untiled file with `automip` on and no
"textureformat" attribute, `open` appends synthesized pyramid specs:

    int w = spec().full_width;  int h = spec().full_height;
    while (w > 1 || h > 1) {
        w = std::max (1, w/2);  h = std::max (1, h/2);  ... m_spec.push_back (s);
    }

Dimensions are non-negative, and C++ `int` division on non-negative
operands is `Nat` division.  The synthesized tile extents
(`pow2roundup`, autotile clamping) do not feed back into the dimension
recurrence and are not part of the claim, so the model tracks the
`(full_width, full_height)` dimensions of each appended spec. -/

/-- The list of `(width, height)` dimensions of the pyramid specs appended
by the auto-MIP loop in `ImageCacheFile::open`, starting below the full
resolution `(w, h)`. -/
def automip_levels (w h : Nat) : List (Nat × Nat) :=
  if w > 1 ∨ h > 1 then
    (max 1 (w / 2), max 1 (h / 2)) :: automip_levels (max 1 (w / 2)) (max 1 (h / 2))
  else
    []
termination_by max w 1 + max h 1
decreasing_by
  rcases Nat.lt_or_ge w 2 with hw | hw
  · have hh : h ≥ 2 := by omega
    have h1 : max 1 (h / 2) ≤ max h 1 - 1 := by omega
    have h2 : max 1 (w / 2) ≤ max w 1 := by omega
    omega
  · have h1 : max 1 (w / 2) ≤ max w 1 - 1 := by omega
    have h2 : max 1 (h / 2) ≤ max h 1 := by omega
    omega

/-- The full per-subimage dimension list of an auto-MIP-generated record:
the original spec (subimage 0) followed by the synthesized levels. -/
def automip_spec_dims (w h : Nat) : List (Nat × Nat) :=
  (w, h) :: automip_levels w h

/-! ## `get_image_info` (C5, and the broken check for C6)

Shallow embedding of `ImageCacheImpl::get_image_info`.  `TypeDesc` is
modelled by its base type and array length (the aggregate field plays no
role in the code paths at issue).  Pixel/attribute payloads are abstract:
attribute data is a list of abstract scalar values tagged with how it is
stored.  What the call writes through `data` is reified as an
`InfoWrite` value, `none` meaning the call returned `false` and wrote
nothing usable. -/

inductive BaseType where
  | uint8
  | int
  | float
  | string
  | other
deriving DecidableEq

structure TypeDesc where
  base : BaseType
  arraylen : Int
deriving DecidableEq

def typeInt : TypeDesc := ⟨BaseType.int, 0⟩

def typeFloat : TypeDesc := ⟨BaseType.float, 0⟩

def typeString : TypeDesc := ⟨BaseType.string, 0⟩

/-- Stored payload of a metadata attribute.  Scalar values are abstract
integers; float payloads are carried opaquely (their bit patterns are not
modelled). -/
inductive AttrData where
  | intData (xs : List Int)
  | floatData (xs : List Int)
  | otherData
deriving DecidableEq

/-- What a successful `get_image_info` call wrote through its `data`
pointer. -/
inductive InfoWrite where
  | resolutionWH (w h : Int)
  | texturetypeName (t : Nat)
  | textureformatName (t : Nat)
  | fileformatName (s : String)
  | channelsInt (n : Int)
  | channelsFloat (n : Int)
  | formatBase (b : BaseType)
  | cachedformatBase (b : BaseType)
  | exactCopy (t : TypeDesc) (d : AttrData)
  | floatFromIntReinterp (d : AttrData) (count : Int)
deriving DecidableEq

/-- A metadata attribute of the spec: name, type, payload. -/
structure SpecAttr where
  name : String
  type : TypeDesc
  data : AttrData
deriving DecidableEq

/-- `ImageSpec::find_attribute (name)`: first attribute with the given
name. -/
def find_attribute (attrs : List SpecAttr) (dataname : String) :
    Option SpecAttr :=
  attrs.find? (fun a => a.name = dataname)

/-- The fields of a file record that `get_image_info` consults. -/
structure InfoFile where
  broken : Bool
  texformat : Nat
  fileformat : String
  datatypeBase : BaseType
  width : Int
  height : Int
  nchannels : Int
  formatBase : BaseType
  attrs : List SpecAttr
deriving DecidableEq

/-- Model of `ImageCacheImpl::get_image_info` after the file has been
found: the recognized well-known names, then the fall-through to
`spec.find_attribute`.  The fall-through mirrors the source exactly: an
exact type match copies the payload; otherwise, when the *stored* base
type is FLOAT and the *requested* base type is INT (the condition as
written in the source, at odds with its own comment), the stored payload
is reinterpreted element-wise as ints and written as floats, for
`arraylen` elements. -/
def get_image_info (f : InfoFile) (dataname : String) (datatype : TypeDesc) :
    Option InfoWrite :=
  if f.broken then none
  else if dataname = "resolution" ∧ datatype = ⟨BaseType.int, 2⟩ then
    some (InfoWrite.resolutionWH f.width f.height)
  else if dataname = "texturetype" ∧ datatype = typeString then
    some (InfoWrite.texturetypeName f.texformat)
  else if dataname = "textureformat" ∧ datatype = typeString then
    some (InfoWrite.textureformatName f.texformat)
  else if dataname = "fileformat" ∧ datatype = typeString then
    some (InfoWrite.fileformatName f.fileformat)
  else if dataname = "channels" ∧ datatype = typeInt then
    some (InfoWrite.channelsInt f.nchannels)
  else if dataname = "channels" ∧ datatype = typeFloat then
    some (InfoWrite.channelsFloat f.nchannels)
  else if dataname = "format" ∧ datatype = typeInt then
    some (InfoWrite.formatBase f.formatBase)
  else if (dataname = "cachedformat" ∨ dataname = "cachedpixeltype") ∧
      datatype = typeInt then
    some (InfoWrite.cachedformatBase f.datatypeBase)
  else
    match find_attribute f.attrs dataname with
    | none => none
    | some p =>
      if p.type.arraylen = datatype.arraylen then
        if p.type = datatype then some (InfoWrite.exactCopy p.type p.data)
        else if p.type.base = BaseType.float ∧ datatype.base = BaseType.int then
          some (InfoWrite.floatFromIntReinterp p.data p.type.arraylen)
        else none
      else none

/-! ## Tile records and the tile cache (C1, C4, C7, C8)

`TileID` carries the canonical file (as an interned id), subimage index
and tile origin.  `ICTile` models `ImageCacheTile`: pixel buffer
(abstract scalar values, one per channel sample), validity flag,
LRU-used flag, and the fixed memory size.  The `TileCache` map with its
sweep iterator is a pair of lists: `prev` holds the entries already
passed by the sweep cursor in the current cycle, `next` the entries at
or after the cursor; map contents in iteration order are
`prev ++ next`. -/

structure TileID where
  fileid : Nat
  subimage : Int
  x : Int
  y : Int
  z : Int
deriving DecidableEq

structure ICTile where
  id : TileID
  valid : Bool
  used : Bool
  memsize : Nat
  pixels : List Int
deriving DecidableEq

/-- Clearing the LRU-used flag (first chance of the two-chance clock). -/
def tile_set_unused (t : ICTile) : ICTile :=
  { t with used := false }

structure TileCacheState where
  prev : List (TileID × ICTile)
  next : List (TileID × ICTile)
  mem_used : Nat
  max_memory_bytes : Nat
deriving DecidableEq

/-- The map contents of the tile cache, in iteration order. -/
def tc_entries (s : TileCacheState) : List (TileID × ICTile) :=
  s.prev ++ s.next

/-- `m_tilecache.find (id)`. -/
def tc_lookup (s : TileCacheState) (k : TileID) : Option ICTile :=
  ((tc_entries s).find? (fun e => e.1 = k)).map (fun e => e.2)

/-- Replace the first binding of `k` in an association list. -/
def assoc_replace (m : List (TileID × ICTile)) (k : TileID) (t : ICTile) :
    List (TileID × ICTile) :=
  match m with
  | [] => []
  | e :: rest =>
    if e.1 = k then (k, t) :: rest else e :: assoc_replace rest k t

/-- `m_tilecache[tile->id()] = tile;` — `std::map::operator[]` followed by
assignment: an existing binding for the key is overwritten in place
(iterators remain valid, the entry keeps its position relative to the
sweep cursor); a fresh key is inserted (its position relative to the
cursor is immaterial here; the model appends it after the cursor). -/
def tc_insert (s : TileCacheState) (t : ICTile) : TileCacheState :=
  if (s.prev.any (fun e => e.1 = t.id)) then
    { s with prev := assoc_replace s.prev t.id t }
  else if (s.next.any (fun e => e.1 = t.id)) then
    { s with next := assoc_replace s.next t.id t }
  else
    { s with next := s.next ++ [(t.id, t)] }

/-- Set the used flag of the cached tile under `k`
(`tile->use()` on a main-cache hit). -/
def tc_touch (s : TileCacheState) (k : TileID) : TileCacheState :=
  { s with
    prev := s.prev.map (fun e => if e.1 = k then (e.1, { e.2 with used := true }) else e),
    next := s.next.map (fun e => if e.1 = k then (e.1, { e.2 with used := true }) else e) }

/-- Termination measure of the tile clock sweep: each entry weighs 1,
plus 1 more if its used flag is set.  Every loop iteration that does not
exit either erases an entry or clears a used flag, so the weight drops. -/
def tile_weight (t : ICTile) : Nat :=
  1 + (if t.used then 1 else 0)

def tc_weight (s : TileCacheState) : Nat :=
  ((tc_entries s).map (fun e => tile_weight e.2)).sum

/-- `ImageCacheImpl::check_max_mem`, the tile clock sweep:

    if (m_tilecache.empty()) return;
    while (m_mem_used >= m_max_memory_bytes) {
        if (m_tile_sweep == m_tilecache.end()) m_tile_sweep = m_tilecache.begin();
        if (m_tile_sweep == m_tilecache.end()) break;   // empty
        if (! m_tile_sweep->second->release()) { ...erase, mem_used -= memsize... }
        else ++m_tile_sweep;
    }

`ImageCacheTile::release` is in `imagecache_pvt.h` (not under `src/`);
modelled from the spec: if the used flag is set, clear it and report the
tile still wanted; otherwise report it evictable.  Erasing an entry
destroys the tile, whose destructor runs `decr_tiles (memsize())`.
The iterator wrap-around and the subsequent processing of one entry
happen within a single loop iteration, matching the source. -/
def check_max_mem (s : TileCacheState) : TileCacheState :=
  if s.mem_used < s.max_memory_bytes then s
  else
    match hn : s.next, hp : s.prev with
    | [], [] => s
    | [], p :: ps =>
      if p.2.used then
        check_max_mem ⟨[(p.1, tile_set_unused p.2)], ps, s.mem_used, s.max_memory_bytes⟩
      else
        check_max_mem ⟨[], ps, s.mem_used - p.2.memsize, s.max_memory_bytes⟩
    | e :: rest, _ =>
      if e.2.used then
        check_max_mem ⟨s.prev ++ [(e.1, tile_set_unused e.2)], rest, s.mem_used, s.max_memory_bytes⟩
      else
        check_max_mem ⟨s.prev, rest, s.mem_used - e.2.memsize, s.max_memory_bytes⟩
termination_by tc_weight s
decreasing_by
  all_goals simp_all [tc_weight, tc_entries, tile_set_unused, tile_weight]
  all_goals omega

/-- Fuel-indexed runner for the same loop, used to state termination as a
proposition (`none` = fuel exhausted before the loop exited). -/
def run_tile_sweep : Nat → TileCacheState → Option TileCacheState
  | 0, _ => none
  | n + 1, s =>
    if s.mem_used < s.max_memory_bytes then some s
    else
      match s.next, s.prev with
      | [], [] => some s
      | [], p :: ps =>
        if p.2.used then
          run_tile_sweep n ⟨[(p.1, tile_set_unused p.2)], ps, s.mem_used, s.max_memory_bytes⟩
        else
          run_tile_sweep n ⟨[], ps, s.mem_used - p.2.memsize, s.max_memory_bytes⟩
      | e :: rest, _ =>
        if e.2.used then
          run_tile_sweep n ⟨s.prev ++ [(e.1, tile_set_unused e.2)], rest, s.mem_used, s.max_memory_bytes⟩
        else
          run_tile_sweep n ⟨s.prev, rest, s.mem_used - e.2.memsize, s.max_memory_bytes⟩

/-- `ImageCacheImpl::add_tile_to_cache`: under the tile write lock, run
`check_max_mem ()` then `m_tilecache[tile->id()] = tile;`.  The caller
(`find_tile_main_cache` or `read_untiled`) has already accounted the new
tile's memory via `incr_tiles`, so `mem_used` includes it on entry. -/
def add_tile_to_cache (s : TileCacheState) (t : ICTile) : TileCacheState :=
  tc_insert (check_max_mem s) t

/-! ## The open-file clock sweep (`ImageCacheImpl::check_max_files`, C8)

    while (m_stat_open_files_current >= m_max_open_files) {
        if (m_file_sweep == m_files.end()) m_file_sweep = m_files.begin();
        if (m_file_sweep == m_files.end()) break;    // empty
        m_file_sweep->second->release ();
        ++m_file_sweep;
    }

with `ImageCacheFile::release` (imagecache.cpp): if the used flag is
set, clear it; otherwise `close()`, which closes the reader handle and
decrements `m_stat_open_files_current` only if one was open.  Only the
per-record open/used flags matter to this loop, so records are reduced
to those two booleans.  `open_files_current` is the engine-wide open
handle counter; it may also count handles of records not present in the
table (in `find_file` the newly constructed `ImageCacheFile` has already
opened its reader and been counted before `check_max_files` runs, but is
inserted into `m_files` only afterwards).  Unlike the tile sweep, this
loop has no erase case and need not terminate; it is modelled only with
fuel. -/

structure SweepFile where
  opened : Bool
  used : Bool
deriving DecidableEq

structure FileSweepState where
  prev : List SweepFile
  next : List SweepFile
  open_files_current : Int
  max_open_files : Int
deriving DecidableEq

/-- `ImageCacheFile::release` as it acts on the reduced record, together
with the effect of `close()` on the open-handle counter (an `int` in the
source): returns the updated record and the counter decrement (1 when an
open handle was closed, else 0). -/
def file_release (f : SweepFile) : SweepFile × Int :=
  if f.used then ({ f with used := false }, 0)
  else if f.opened then ({ f with opened := false }, 1)
  else (f, 0)

/-- Fuel-indexed runner of the `check_max_files` loop (`none` = fuel
exhausted before the loop exited). -/
def run_file_sweep : Nat → FileSweepState → Option FileSweepState
  | 0, _ => none
  | n + 1, s =>
    if s.open_files_current < s.max_open_files then some s
    else
      match s.next, s.prev with
      | [], [] => some s
      | [], p :: ps =>
        run_file_sweep n
          ⟨[(file_release p).1], ps, s.open_files_current - (file_release p).2,
            s.max_open_files⟩
      | f :: rest, _ =>
        run_file_sweep n
          ⟨s.prev ++ [(file_release f).1], rest, s.open_files_current - (file_release f).2,
            s.max_open_files⟩

/-- The table contents in the cyclic order the sweep will visit them
(from the cursor onward, then wrapping). -/
def fs_scan (s : FileSweepState) : List SweepFile :=
  s.next ++ s.prev

/-- Number of records in the table with an open reader handle. -/
def fs_open_count (s : FileSweepState) : Nat :=
  ((fs_scan s).filter (fun f => f.opened)).length

/-- Measure for the terminating cases of the file sweep: total progress
weight (an open record contributes 2 if used else 1, a closed record 0)
times (table size + 1), plus the cyclic distance from the sweep cursor
to the next open record. -/
def file_weight (f : SweepFile) : Nat :=
  if f.opened then (if f.used then 2 else 1) else 0

def dist_to_open : List SweepFile → Nat
  | [] => 0
  | f :: r => if f.opened then 0 else dist_to_open r + 1

/-- Combined termination measure for the terminating cases of the file
sweep: total progress weight scaled past the table length, plus the
cyclic distance from the cursor to the next open record. -/
def fs_measure (s : FileSweepState) : Nat :=
  ((fs_scan s).map file_weight).sum * ((fs_scan s).length + 1) +
    dist_to_open (fs_scan s)

/-! ## Tile fetching and `get_pixels` (C7)

The per-subimage geometry an `ImageSpec` contributes to the tile paths.
Pixel values are abstract scalars (`Int`), one per channel sample;
`convert_types` / `convert_image` copy values verbatim in this model
(type conversion of individual samples is value-preserving at this level
of abstraction). -/

structure PixSpec where
  x : Int
  y : Int
  z : Int
  tile_width : Int
  tile_height : Int
  tile_depth : Int
  nchannels : Int
deriving DecidableEq

/-- Channel-sample count of one tile,
`tile_width*tile_height*tile_depth*nchannels` (`ImageCacheTile::memsize`
up to the constant per-sample byte size, which scales all sizes alike). -/
def tile_samples (sp : PixSpec) : Nat :=
  (sp.tile_width * sp.tile_height * sp.tile_depth * sp.nchannels).toNat

/-- The file-level data the tile paths use: an interned file id and the
per-subimage specs.  The in-cache datatype only scales byte sizes and is
abstracted away. -/
structure CacheFile where
  fileid : Nat
  specs : List PixSpec
deriving DecidableEq

def CacheFile.spec (f : CacheFile) (subimage : Int) : PixSpec :=
  f.specs.getD subimage.toNat ⟨0, 0, 0, 0, 0, 0, 0⟩

/-- The reader oracle: outcome of `ImageCacheFile::read_tile` for a given
tile, `none` meaning the read failed.  On failure the C++ constructor
keeps the freshly allocated (zero-initialized) buffer; the model takes
the failed read to leave it untouched. -/
def ReadOracle : Type :=
  TileID → Option (List Int)

/-- `ImageCacheTile::ImageCacheTile (id, thread_info)` (the reading
constructor): allocate the buffer at its fixed size, run
`file.read_tile`, set `valid` from the result, and clear `used` when the
read failed so the tile is the first eviction candidate.  A successful
read fills the buffer (normalized to the allocated size). -/
def new_tile (f : CacheFile) (reader : ReadOracle) (tid : TileID) : ICTile :=
  let size := tile_samples (f.spec tid.subimage)
  match reader tid with
  | some pix =>
    { id := tid, valid := true, used := true, memsize := size,
      pixels := pix.takeD size 0 }
  | none =>
    { id := tid, valid := false, used := false, memsize := size,
      pixels := List.replicate size 0 }

/-- `ImageCacheTile::data (x, y, z)`: byte pointer to one pixel inside
the tile, `null` when out of tile bounds; here the `nchannels` channel
samples of that pixel.  Bounds and offset use the spec of the tile's own
subimage, as in the source. -/
def tile_data (f : CacheFile) (t : ICTile) (x y z : Int) : Option (List Int) :=
  let sp := f.spec t.id.subimage
  let w := sp.tile_width
  let h := sp.tile_height
  let d := max 1 sp.tile_depth
  let x' := x - t.id.x
  let y' := y - t.id.y
  let z' := z - t.id.z
  if x' < 0 ∨ x' ≥ w ∨ y' < 0 ∨ y' ≥ h ∨ z' < 0 ∨ z' ≥ d then none
  else
    some (((t.pixels.drop (((z' * h + y') * w + x') * sp.nchannels).toNat).take
      sp.nchannels.toNat))

/-- Engine state threaded through tile queries: the global tile cache and
the calling thread's two-slot microcache
(`thread_info->tile`, `thread_info->lasttile`). -/
structure EngineState where
  tc : TileCacheState
  microtile : Option ICTile
  microlast : Option ICTile
deriving DecidableEq

/-- A tile carrying no valid data: its validity flag is down and its
buffer holds only zeros (the zero-initialized allocation a failed read
leaves behind). -/
def tile_zero (t : ICTile) : Prop :=
  t.valid = false ∧ ∀ v ∈ t.pixels, v = 0

/-- Every entry of the tile cache sits under its own id as key, and any
entry under the key `T` is an invalid all-zero tile. -/
def tc_clean (T : TileID) (tc : TileCacheState) : Prop :=
  ∀ e ∈ tc_entries tc, e.2.id = e.1 ∧ (e.1 = T → tile_zero e.2)

/-- A microcache slot holds no valid data for the tile id `T`. -/
def micro_clean (T : TileID) (mt : Option ICTile) : Prop :=
  ∀ t, mt = some t → t.id = T → tile_zero t

/-- The engine state holds no valid data for the tile id `T` anywhere
(main cache or microcache), and the cache keys are consistent. -/
def es_clean (T : TileID) (es : EngineState) : Prop :=
  tc_clean T es.tc ∧ micro_clean T es.microtile ∧ micro_clean T es.microlast

/-- A microcache slot does not reference the tile id `T` at all. -/
def micro_noT (T : TileID) (mt : Option ICTile) : Prop :=
  ∀ t, mt = some t → t.id ≠ T

/-- The tile id `T` appears nowhere in the engine state. -/
def es_noT (T : TileID) (es : EngineState) : Prop :=
  (∀ e ∈ tc_entries es.tc, e.1 ≠ T) ∧ micro_noT T es.microtile ∧
    micro_noT T es.microlast

/-- `ImageCacheImpl::find_tile_main_cache`: under the read lock, look the
id up; on a hit, mark the tile used and report success (the hit path
does not consult the validity flag).  On a miss, construct and read the
tile outside the table lock, account its memory (`incr_tiles`), then
`add_tile_to_cache` (evict, insert); report the new tile's validity.
Returns (found flag, the tile reference handed to the thread, new
state). -/
def find_tile_main_cache (f : CacheFile) (reader : ReadOracle) (tid : TileID)
    (es : EngineState) : Bool × ICTile × EngineState :=
  match tc_lookup es.tc tid with
  | some t =>
    (true, { t with used := true }, { es with tc := tc_touch es.tc tid })
  | none =>
    let t := new_tile f reader tid
    let tc1 : TileCacheState :=
      { es.tc with mem_used := es.tc.mem_used + t.memsize }
    (t.valid, t, { es with tc := add_tile_to_cache tc1 t })

/-- Modelled from the spec: `ImageCacheImpl::find_tile`, the thread-local
microcache fast path, lives in `imagecache_pvt.h`, which is not under
`src/`.  Per the spec (§4.F, §4.B): if the thread's current tile matches
the id, return it; else if the previous tile matches, swap current and
previous and return it; else fall through to the main cache and write
the result into current, moving the old current into previous.  A failed
tile is never handed back as a hit, so the returned flag on a microcache
hit is the tile's validity. -/
def find_tile (f : CacheFile) (reader : ReadOracle) (tid : TileID)
    (es : EngineState) : Bool × EngineState :=
  match es.microtile with
  | some t =>
    if t.id = tid then (t.valid, es)
    else
      match es.microlast with
      | some lt =>
        if lt.id = tid then
          (lt.valid, { es with microtile := some lt, microlast := es.microtile })
        else
          let (ok, nt, es') := find_tile_main_cache f reader tid es
          (ok, { es' with microtile := some nt, microlast := es.microtile })
      | none =>
        let (ok, nt, es') := find_tile_main_cache f reader tid es
        (ok, { es' with microtile := some nt, microlast := es.microtile })
  | none =>
    let (ok, nt, es') := find_tile_main_cache f reader tid es
    (ok, { es' with microtile := some nt, microlast := es.microtile })

/-- Truncated division/remainder tile-origin snap used by `get_pixels`:
`tx = x - (x % spec.tile_width)` with C++ `%` (truncated remainder). -/
def tile_origin_coord (v tsize : Int) : Int :=
  v - Int.tmod v tsize

/-- The tile id containing pixel `(x, y, z)` of the given subimage, as
`get_pixels` computes it.  As in the source, the tile extents come from
`file->spec()` — subimage 0's spec — regardless of the requested
subimage. -/
def pixel_tile_id (f : CacheFile) (subimage : Int) (x y z : Int) : TileID :=
  let sp := f.spec 0
  ⟨f.fileid, subimage,
    tile_origin_coord x sp.tile_width,
    tile_origin_coord y sp.tile_height,
    tile_origin_coord z (max 1 sp.tile_depth)⟩

/-- The pixel coordinates of the region
`[xbegin,xend) × [ybegin,yend) × [zbegin,zend)` in the `(z, y, x)`
iteration order of `get_pixels` (x innermost). -/
def int_range (a b : Int) : List Int :=
  (List.range (b - a).toNat).map (fun i => a + i)

def region_coords (xb xe yb ye zb ze : Int) : List (Int × Int × Int) :=
  (int_range zb ze).flatMap (fun z =>
    (int_range yb ye).flatMap (fun y =>
      (int_range xb xe).map (fun x => (z, y, x))))

/-- One iteration of the innermost `get_pixels` loop body for pixel
`(z, y, x)`: fetch the containing tile through the microcache, then copy
the pixel's channel samples out of the tile (`convert_types`), or
zero-fill them when the tile reference is null or `data` is out of
bounds.  Returns the fetch flag, the written samples, and the state. -/
def get_pixels_step (f : CacheFile) (reader : ReadOracle) (subimage : Int)
    (c : Int × Int × Int) (es : EngineState) :
    Bool × List Int × EngineState :=
  let nc := (f.spec 0).nchannels
  let tid := pixel_tile_id f subimage c.2.2 c.2.1 c.1
  let (ok, es') := find_tile f reader tid es
  match es'.microtile with
  | some t =>
    match tile_data f t c.2.2 c.2.1 c.1 with
    | some pix => (ok, pix, es')
    | none => (ok, List.replicate nc.toNat 0, es')
  | none => (ok, List.replicate nc.toNat 0, es')

/-- The `get_pixels` triple loop over a coordinate list, accumulating the
success flag as the AND of all tile fetches and the output buffer as the
per-pixel sample lists in iteration order (each paired with its
coordinate; the pairing is determined by the iteration order and stands
in for the advancing output pointer). -/
def get_pixels_loop (f : CacheFile) (reader : ReadOracle) (subimage : Int) :
    List (Int × Int × Int) → EngineState → Bool →
    List ((Int × Int × Int) × List Int) →
    Bool × List ((Int × Int × Int) × List Int) × EngineState
  | [], es, ok, out => (ok, out, es)
  | c :: cs, es, ok, out =>
    let (okc, pix, es') := get_pixels_step f reader subimage c es
    get_pixels_loop f reader subimage cs es' (ok && okc) (out ++ [(c, pix)])

/-- `ImageCacheImpl::get_pixels (file, thread_info, subimage, ...)` (the
internal overload, after the broken/subimage checks of the public
entry): iterate over the region in `(z, y, x)` order. -/
def get_pixels (f : CacheFile) (reader : ReadOracle) (subimage : Int)
    (xb xe yb ye zb ze : Int) (es : EngineState) :
    Bool × List ((Int × Int × Int) × List Int) × EngineState :=
  get_pixels_loop f reader subimage (region_coords xb xe yb ye zb ze) es true []

/-! ## File records, lazy open, and the file table (C2, C3, C6, C9)

`ImageCacheFile` is modelled by the fields its open state machine and
the `find_file` dedup logic consult.  Per-subimage specs are reduced to
their `(full_width, full_height)` dimensions — the part the claims
examine.  The external reader plugin layer (`ImageInput::create`,
`open`, `seek_subimage` and the attribute parses of the first open) is
an oracle: an `OpenResult` describes everything the first successful
open would extract from the file.  Wrap modes, datatype, cube layout are
carried as plain numerals standing for the respective enums. -/

structure FRec where
  filename : String
  broken : Bool
  opened : Bool
  timesopened : Nat
  used : Bool
  fingerprint : Option String
  duplicate : Option Nat
  swrap : Nat
  twrap : Nat
  datatype : Nat
  cubelayout : Nat
  y_up : Bool
  untiled : Bool
  unmipped : Bool
  specs : List (Nat × Nat)
deriving DecidableEq

def defFRec : FRec :=
  { filename := "", broken := false, opened := false, timesopened := 0,
    used := false, fingerprint := none, duplicate := none, swrap := 0,
    twrap := 0, datatype := 0, cubelayout := 0, y_up := false,
    untiled := false, unmipped := false, specs := [] }

/-- The cache configuration fields `ImageCacheFile::open` reads. -/
structure ICConfig where
  automip : Bool
  accept_untiled : Bool
deriving DecidableEq

/-- Outcome of the reader-side work of an open attempt:
`createFail` = `ImageInput::create` returned null, `openFail` =
`m_input->open` failed; `ok` carries what the subimage walk and the
attribute parses of a first successful open would yield (raw subimage
dimensions, whether the source is scanline-oriented, presence of a
"textureformat" attribute, the SHA-1 fingerprint from the description,
and the parsed wrap/datatype/cube/orientation fields). -/
inductive OpenResult where
  | createFail
  | openFail
  | ok (rawdims : List (Nat × Nat)) (untiled : Bool) (has_textureformat : Bool)
      (fingerprint : Option String) (swrap twrap datatype cubelayout : Nat)
      (y_up : Bool)
deriving DecidableEq

/-- `ImageCacheFile::open (thread_info)`: idempotent lazy open.  Already
open → report `!broken`; already broken → fail without touching the
reader; otherwise attempt the open.  On reader failure set `broken`.  On
success count the open and, on the very first open only, record the
subimage specs (appending the auto-MIP pyramid for a single-subimage
untiled file when `automip` is on and no "textureformat" attribute is
present), then reject untiled files when `accept_untiled` is off
(setting `broken`, with the enumerated specs retained, as in the
source), and otherwise parse the fingerprint and the
wrap/datatype/cube/orientation fields. -/
def fr_open (cfg : ICConfig) (orc : OpenResult) (f : FRec) : Bool × FRec :=
  if f.opened then (!f.broken, f)
  else if f.broken then (false, f)
  else
    match orc with
    | OpenResult.createFail => (false, { f with broken := true })
    | OpenResult.openFail => (false, { f with broken := true })
    | OpenResult.ok raw untiled hastex fp sw tw dt cl yup =>
      let f1 : FRec :=
        { f with opened := true, timesopened := f.timesopened + 1, used := true }
      if f1.specs ≠ [] then (true, f1)
      else
        let unmipped := raw.length = 1
        let w0 := (raw.headD (0, 0)).1
        let h0 := (raw.headD (0, 0)).2
        let specs :=
          raw ++ (if untiled ∧ unmipped ∧ cfg.automip ∧ ¬hastex then
            automip_levels w0 h0 else [])
        let f2 : FRec :=
          { f1 with specs := specs, untiled := untiled, unmipped := unmipped }
        if untiled ∧ ¬cfg.accept_untiled then
          (false, { f2 with broken := true, opened := false })
        else
          (true, { f2 with
            fingerprint := fp, swrap := sw, twrap := tw,
            datatype := dt, cubelayout := cl, y_up := yup })

/-- `ImageCacheFile::close`: drop the reader handle if one is open. -/
def fr_close (f : FRec) : FRec :=
  { f with opened := false }

/-- `ImageCacheFile::invalidate`: close, clear the spec list, clear
`broken`, clear the fingerprint, drop the duplicate link, then re-open
to refresh. -/
def fr_invalidate (cfg : ICConfig) (orc : OpenResult) (f : FRec) : FRec :=
  (fr_open cfg orc
    { fr_close f with
      specs := [], broken := false, fingerprint := none,
      duplicate := none }).2

/-- The file table: the record slab (a record's id is its index), the
`by_name` map and the `by_fingerprint` map. -/
structure FTState where
  files : List FRec
  by_name : List (String × Nat)
  by_fingerprint : List (String × Nat)
deriving DecidableEq

def lookup_id (m : List (String × Nat)) (k : String) : Option Nat :=
  (m.find? (fun e => e.1 = k)).map (fun e => e.2)

def ft_get (st : FTState) (i : Nat) : FRec :=
  st.files.getD i defFRec

/-- The duplicate test of `find_file`: wrap modes, datatype, cube layout
and y-up orientation all agree (the fingerprint itself only covers the
source pixel values). -/
def wrap_fields_match (a b : FRec) : Prop :=
  a.swrap = b.swrap ∧ a.twrap = b.twrap ∧ a.datatype = b.datatype ∧
    a.cubelayout = b.cubelayout ∧ a.y_up = b.y_up

instance (a b : FRec) : Decidable (wrap_fields_match a b) := by
  unfold wrap_fields_match
  infer_instance

/-- Well-formedness of the file table: both maps point at existing
records and duplicate links stay in range. -/
def ft_wf (st : FTState) : Prop :=
  (∀ e ∈ st.by_name, e.2 < st.files.length) ∧
    (∀ e ∈ st.by_fingerprint, e.2 < st.files.length) ∧
    (∀ f ∈ st.files, ∀ d, f.duplicate = some d → d < st.files.length)

/-- `tf->use ()` on the record with id `i`. -/
def ft_use (st : FTState) (i : Nat) : FTState :=
  { st with files := st.files.set i { ft_get st i with used := true } }

/-- `ImageCacheImpl::find_file (filename, thread_info)`.  The parameter
`mk` models the `ImageCacheFile` constructor (which resolves the
filename and runs the first open attempt, so the produced record arrives
opened, or broken, with its fingerprint and texture fields filled).
Steps, as in the source: look up `by_name` and on a hit follow the
duplicate link (one hop), mark used, return; otherwise construct the
record outside the lock, then under the write lock do the fingerprint
deduplication — if the fingerprint is non-empty and absent from
`by_fingerprint`, insert the newcomer there; if present and the wrap
modes, datatype, cube layout and y-up orientation all match, mark the
newcomer a duplicate of the canonical record and close its reader; if
present but any of those differ, leave both maps untouched — then insert
into `by_name`, follow the duplicate link for the returned record, and
mark it used.  (`check_max_files`, which runs between the dedup and the
insertion, only closes reader handles and clears used flags of already
tabled records — it is treated separately and elided here.)  The
single-threaded model collapses the second `by_name` lookup under the
write lock with the first.  The C++ function returns a possibly-null
pointer; every return path produces a record, hence `some`. -/
def find_file (st : FTState) (name : String) (mk : String → FRec) :
    Option Nat × FTState :=
  match lookup_id st.by_name name with
  | some i =>
    let j := (ft_get st i).duplicate.getD i
    (some j, ft_use st j)
  | none =>
    let k := st.files.length
    let tf0 := mk name
    let dedup : FRec × List (String × Nat) :=
      match tf0.fingerprint with
      | none => (tf0, st.by_fingerprint)
      | some fp =>
        match lookup_id st.by_fingerprint fp with
        | none => (tf0, st.by_fingerprint ++ [(fp, k)])
        | some d =>
          let dup := ft_get st d
          if wrap_fields_match tf0 dup then
            ({ tf0 with duplicate := some d, opened := false },
              st.by_fingerprint)
          else
            (tf0, st.by_fingerprint)
    let tf := dedup.1
    let st' : FTState :=
      { files := st.files ++ [tf], by_name := st.by_name ++ [(name, k)],
        by_fingerprint := dedup.2 }
    let j := tf.duplicate.getD k
    (some j, ft_use st' j)

inductive ICErr where
  | notFound
  | brokenFile
  | badSubimage
deriving DecidableEq

/-- `ImageCacheImpl::get_imagespec (filename, spec, subimage)`: find or
open the file; "not found" if `find_file` returned null, "invalid image
file" (broken) if the record is broken, "unknown subimage" if the index
is out of range; otherwise copy the subimage's spec out. -/
def ic_get_imagespec (st : FTState) (name : String) (subimage : Int)
    (mk : String → FRec) : Except ICErr ((Nat × Nat) × FTState) :=
  match find_file st name mk with
  | (none, _) => Except.error ICErr.notFound
  | (some i, st') =>
    let f := ft_get st' i
    if f.broken then Except.error ICErr.brokenFile
    else if subimage < 0 ∨ (f.specs.length : Int) ≤ subimage then
      Except.error ICErr.badSubimage
    else Except.ok (f.specs.getD subimage.toNat (0, 0), st')

/-- The entry checks of the public `ImageCacheImpl::get_pixels` overload
(file null / broken / subimage range), which guard the pixel loop. -/
def ic_get_pixels_checks (st : FTState) (name : String) (subimage : Int)
    (mk : String → FRec) : Except ICErr (Nat × FTState) :=
  match find_file st name mk with
  | (none, _) => Except.error ICErr.notFound
  | (some i, st') =>
    let f := ft_get st' i
    if f.broken then Except.error ICErr.brokenFile
    else if subimage < 0 ∨ (f.specs.length : Int) ≤ subimage then
      Except.error ICErr.badSubimage
    else Except.ok (i, st')

/-! # Theorems -/

/-! ## C10 — `max_memory_MB` byte-ceiling arithmetic -/

theorem wrap32_eq_self {x : Int} (h1 : -(2 ^ 31) ≤ x) (h2 : x < 2 ^ 31) :
    wrap32 x = x := by
  unfold wrap32
  have h0 : (0 : Int) ≤ x + 2 ^ 31 := by omega
  have h3 : x + 2 ^ 31 < 2 ^ 32 := by omega
  rw [Int.emod_eq_of_lt h0 h3]
  omega

theorem wrap32_lt (x : Int) : wrap32 x < 2 ^ 31 := by
  unfold wrap32
  have h0 : (0 : Int) ≤ (x + 2 ^ 31) % 2 ^ 32 := Int.emod_nonneg _ (by norm_num)
  have h1 : (x + 2 ^ 31) % 2 ^ 32 < 2 ^ 32 := Int.emod_lt_of_pos _ (by norm_num)
  omega

/-- Claim C10, counterexample to the claim as stated.  First part of the
claim: "for every value of `size` with `size * 2^20 < 2^31` the stored
byte ceiling equals `size * 2^20`" — false at `size = -4096`, where the
product `-2^32` satisfies the bound but the stored (wrapped) value is
`0`.  Second part: "for `size >= 2048` the stored ceiling wraps modulo
`2^32` (becoming non-positive)" — at `size = 4097` the wrapped value is
`+2^20`, which is positive. -/
theorem C10_counterexample :
    ((-4096 : Int) * 1048576 < 2 ^ 31 ∧
      set_max_memory_bytes (-4096) ≠ (-4096 : Int) * 1048576) ∧
    (set_max_memory_bytes 4097 = 2 ^ 20 ∧ ¬ set_max_memory_bytes 4097 ≤ 0) := by
  refine ⟨⟨by norm_num, ?_⟩, ?_, ?_⟩ <;> simp [set_max_memory_bytes, wrap32] <;> decide

/-- Claim C10 (amended): setting `max_memory_MB` stores
`(int)(size * 1024 * 1024)`; whenever the product `size·2^20` lies in
the signed 32-bit range the stored ceiling equals `size·2^20`, and for
`size ≥ 2048` the stored value wraps modulo `2^32` into `[-2^31, 2^31)`
(it may be positive) and no longer equals `size·2^20`. -/
theorem C10_max_memory_bytes (size : Int) :
    (-(2 ^ 31) ≤ size * 1048576 → size * 1048576 < 2 ^ 31 →
      set_max_memory_bytes size = size * 1048576) ∧
    (2048 ≤ size → set_max_memory_bytes size ≠ size * 1048576) := by
  constructor
  · intro h1 h2
    exact wrap32_eq_self h1 h2
  · intro h
    have h2 : (2 : Int) ^ 31 ≤ size * 1048576 := by nlinarith
    have h3 := wrap32_lt (size * 1048576)
    unfold set_max_memory_bytes
    omega

/-- Witness for C10: both conjuncts applied at concrete sizes (50 MB in
range; 2048 MB wrapping). -/
theorem C10_max_memory_bytes_witness :
    set_max_memory_bytes 50 = 50 * 1048576 ∧
    set_max_memory_bytes 2048 ≠ 2048 * 1048576 :=
  ⟨(C10_max_memory_bytes 50).1 (by norm_num) (by norm_num),
    (C10_max_memory_bytes 2048).2 (by norm_num)⟩

/-! ## C2 — auto-MIP spec synthesis dimensions -/

/-- One halving step of the auto-MIP loop. -/
def mip_half (p : Nat × Nat) : Nat × Nat :=
  (max 1 (p.1 / 2), max 1 (p.2 / 2))

theorem automip_levels_chain (w h : Nat) :
    List.Chain (fun p q => q = mip_half p) (w, h) (automip_levels w h) := by
  rw [automip_levels]
  split
  · exact List.Chain.cons rfl (automip_levels_chain _ _)
  · exact List.Chain.nil
termination_by max w 1 + max h 1
decreasing_by
  rcases Nat.lt_or_ge w 2 with hw | hw
  · have hh : h ≥ 2 := by omega
    omega
  · omega

theorem automip_levels_last (w h : Nat) (hne : automip_levels w h ≠ []) :
    (automip_levels w h).getLast? = some (1, 1) := by
  by_cases hg : w > 1 ∨ h > 1
  · rw [automip_levels, if_pos hg]
    rcases hr : automip_levels (max 1 (w / 2)) (max 1 (h / 2)) with _ | ⟨a, l⟩
    · have h1 : max 1 (w / 2) = 1 ∧ max 1 (h / 2) = 1 := by
        by_contra hc
        rw [automip_levels] at hr
        have hg2 : max 1 (w / 2) > 1 ∨ max 1 (h / 2) > 1 := by omega
        rw [if_pos hg2] at hr
        simp at hr
      simp [hr, h1.1, h1.2]
    · have ih := automip_levels_last (max 1 (w / 2)) (max 1 (h / 2)) (by simp [hr])
      rw [hr] at ih
      rw [List.getLast?_cons_cons]
      exact ih
  · rw [automip_levels, if_neg hg] at hne
    simp at hne
termination_by max w 1 + max h 1
decreasing_by
  rcases Nat.lt_or_ge w 2 with hw | hw
  · have hh : h ≥ 2 := by omega
    omega
  · omega

/-- Claim C2, counterexample to the claim as stated: for a 100×100
single-subimage file opened with automip, the spec of subimage 3 has
dimensions 12×12 (floor halving: 100 → 50 → 25 → 12), not
ceil(100/8) = 13. -/
theorem C2_counterexample :
    (automip_spec_dims 100 100).getD 3 (0, 0) = (12, 12) ∧
    ((12, 12) : Nat × Nat) ≠ (13, 13) := by
  constructor
  · simp [automip_spec_dims]
    rw [automip_levels]; norm_num
    rw [automip_levels]; norm_num
    rw [automip_levels]; norm_num
  · decide

/-- Claim C2 (amended): for an auto-MIP-generated record the spec list
has at least one entry, each subsequent entry has dimensions
`max 1 (floor (prev / 2))` in each axis, and (when any level was
synthesized) the list ends at 1×1. -/
theorem C2_automip_dims (w h : Nat) :
    1 ≤ (automip_spec_dims w h).length ∧
    (∀ i : Nat, ∀ hi : i + 1 < (automip_spec_dims w h).length,
      (automip_spec_dims w h).get ⟨i + 1, hi⟩ =
        mip_half ((automip_spec_dims w h).get ⟨i, by omega⟩)) ∧
    (1 < (automip_spec_dims w h).length →
      (automip_spec_dims w h).getLast? = some (1, 1)) := by
  refine ⟨by simp [automip_spec_dims], ?_, ?_⟩
  · intro i hi
    have hc := automip_levels_chain w h
    have := List.chain_iff_get.mp hc
    unfold automip_spec_dims
    rcases i with _ | j
    · rcases this with ⟨h1, _⟩
      simp only [automip_spec_dims, List.length_cons] at hi
      have := h1 (by omega)
      simp [List.get]
      exact this
    · rcases this with ⟨_, h2⟩
      simp only [automip_spec_dims, List.length_cons] at hi
      have := h2 j (by omega)
      simp [List.get]
      exact this
  · intro hlen
    unfold automip_spec_dims at hlen ⊢
    have hne2 : automip_levels w h ≠ [] := by
      intro hemp
      rw [hemp] at hlen
      simp at hlen
    have hlast := automip_levels_last w h hne2
    rcases hl : automip_levels w h with _ | ⟨b, l'⟩
    · exact absurd hl hne2
    · rw [hl] at hlast
      rw [List.getLast?_cons_cons]
      exact hlast

/-- Witness for C2: the amended statement applied to the 100×100 example
at the first halving step. -/
theorem C2_automip_dims_witness :
    (0 : Nat) + 1 < (automip_spec_dims 100 100).length ∧
    (automip_spec_dims 100 100).get ⟨1, by
      rw [automip_spec_dims, automip_levels]; norm_num⟩ = (50, 50) := by
  have hlen : (0 : Nat) + 1 < (automip_spec_dims 100 100).length := by
    rw [automip_spec_dims, automip_levels]; norm_num
  refine ⟨hlen, ?_⟩
  have := (C2_automip_dims 100 100).2.1 0 hlen
  rw [this]
  simp [automip_spec_dims, mip_half]

/-! ## C5 — `get_image_info` metadata fall-through and the int→float
coercion

The source comment says "If the real data is int but user asks for
float, translate it", and the claim restates that; but the condition as
written tests `p->type().basetype == FLOAT && datatype.basetype == INT`
— stored float, requested int — so the advertised coercion never fires
and the call returns false, while the swapped case fires and
reinterprets stored float bytes as ints. -/

/-- Claim C5 (code bug, evaluated at the failing input): an attribute
"FStop" stored as int[4], requested as float[4] (equal array lengths),
is *not* coerced — `get_image_info` returns failure, where the claim,
the spec and the code's own comment promise conversion and `true`.  The
second conjunct shows the swapped branch firing: a float[4] attribute
requested as int[4] takes the "coercion" path, reinterpreting the
stored float data as ints. -/
theorem C5_coercion_condition_swapped :
    get_image_info
      { broken := false, texformat := 0, fileformat := "tiff",
        datatypeBase := BaseType.uint8, width := 256, height := 256,
        nchannels := 3, formatBase := BaseType.uint8,
        attrs := [⟨"FStop", ⟨BaseType.int, 4⟩, AttrData.intData [2, 4, 8, 11]⟩] }
      "FStop" ⟨BaseType.float, 4⟩ = none ∧
    get_image_info
      { broken := false, texformat := 0, fileformat := "tiff",
        datatypeBase := BaseType.uint8, width := 256, height := 256,
        nchannels := 3, formatBase := BaseType.uint8,
        attrs := [⟨"speed", ⟨BaseType.float, 4⟩, AttrData.floatData [1, 2, 3, 4]⟩] }
      "speed" ⟨BaseType.int, 4⟩ =
      some (InfoWrite.floatFromIntReinterp (AttrData.floatData [1, 2, 3, 4]) 4) := by
  constructor <;> rfl

/-! ## C4 — collision behavior of the tile-cache insertion -/

theorem assoc_replace_find_self (m : List (TileID × ICTile)) (k : TileID)
    (t : ICTile) (h : m.any (fun e => e.1 = k) = true) :
    (assoc_replace m k t).find? (fun e => e.1 = k) = some (k, t) := by
  induction m with
  | nil => simp at h
  | cons e rest ih =>
    by_cases he : e.1 = k
    · simp [assoc_replace, he]
    · simp only [List.any_cons, he] at h
      simp only [assoc_replace, if_neg he]
      rw [List.find?_cons_of_neg _ (by simp [he])]
      exact ih (by simpa using h)

theorem find?_eq_none_of_not_any (m : List (TileID × ICTile)) (k : TileID)
    (h : m.any (fun e => e.1 = k) = false) :
    m.find? (fun e => e.1 = k) = none := by
  rw [List.find?_eq_none]
  intro x hx
  simp only [List.any_eq_false] at h
  simpa using h x hx

/-- After `tc_insert s t`, the live entry under `t.id` is `t` itself (the
newcomer): an existing binding is overwritten, a missing one appended. -/
theorem tc_lookup_insert (s : TileCacheState) (t : ICTile) :
    tc_lookup (tc_insert s t) t.id = some t := by
  unfold tc_insert tc_lookup tc_entries
  by_cases h1 : s.prev.any (fun e => e.1 = t.id)
  · rw [if_pos h1, List.find?_append, assoc_replace_find_self s.prev t.id t h1]
    rfl
  · have h1f : s.prev.any (fun e => e.1 = t.id) = false := Bool.eq_false_iff.mpr h1
    by_cases h2 : s.next.any (fun e => e.1 = t.id)
    · rw [if_neg h1, if_pos h2, List.find?_append,
        find?_eq_none_of_not_any s.prev t.id h1f,
        assoc_replace_find_self s.next t.id t h2]
      rfl
    · have h2f : s.next.any (fun e => e.1 = t.id) = false := Bool.eq_false_iff.mpr h2
      rw [if_neg h1, if_neg h2, List.find?_append,
        find?_eq_none_of_not_any s.prev t.id h1f, List.find?_append,
        find?_eq_none_of_not_any s.next t.id h2f,
        List.find?_cons_of_pos _ (by simp)]
      rfl

/-- Claim C4, counterexample to the claim as stated: with a tile already
resident under the id, `add_tile_to_cache` of a newcomer with the same
id leaves the *newcomer* in the table — the earlier entry does not win
and is not returned. -/
theorem C4_counterexample :
    tc_lookup
      (add_tile_to_cache
        ⟨[], [(⟨0, 0, 0, 0, 0⟩,
          ⟨⟨0, 0, 0, 0, 0⟩, true, true, 12, [1, 1, 1]⟩)], 12, 1000⟩
        ⟨⟨0, 0, 0, 0, 0⟩, true, true, 12, [2, 2, 2]⟩)
      ⟨0, 0, 0, 0, 0⟩ =
      some ⟨⟨0, 0, 0, 0, 0⟩, true, true, 12, [2, 2, 2]⟩ ∧
    (⟨⟨0, 0, 0, 0, 0⟩, true, true, 12, [2, 2, 2]⟩ : ICTile) ≠
      ⟨⟨0, 0, 0, 0, 0⟩, true, true, 12, [1, 1, 1]⟩ := by
  constructor
  · rw [add_tile_to_cache, check_max_mem]
    norm_num
    rfl
  · decide

/-- Claim C4 (amended): when the insertion in `add_tile_to_cache` finds
an entry with the same TileID already present, the *newcomer* wins:
`m_tilecache[id] = tile` overwrites the resident entry, and the newcomer
is the entry left live in the table (and the reference the caller
retains). -/
theorem C4_insert_newcomer_wins (s : TileCacheState) (t u : ICTile)
    (hres : tc_lookup s t.id = some u) :
    tc_lookup (add_tile_to_cache s t) t.id = some t := by
  exact tc_lookup_insert (check_max_mem s) t

/-- Witness for C4: the amended statement at a concrete resident/newcomer
pair. -/
theorem C4_insert_newcomer_wins_witness :
    tc_lookup
      ⟨[], [(⟨0, 0, 0, 0, 0⟩,
        ⟨⟨0, 0, 0, 0, 0⟩, true, true, 12, [1, 1, 1]⟩)], 12, 1000⟩
      (⟨0, 0, 0, 0, 0⟩ : TileID) =
      some ⟨⟨0, 0, 0, 0, 0⟩, true, true, 12, [1, 1, 1]⟩ ∧
    tc_lookup
      (add_tile_to_cache
        ⟨[], [(⟨0, 0, 0, 0, 0⟩,
          ⟨⟨0, 0, 0, 0, 0⟩, true, true, 12, [1, 1, 1]⟩)], 12, 1000⟩
        ⟨⟨0, 0, 0, 0, 0⟩, true, true, 12, [2, 2, 2]⟩)
      (⟨0, 0, 0, 0, 0⟩ : TileID) =
      some ⟨⟨0, 0, 0, 0, 0⟩, true, true, 12, [2, 2, 2]⟩ := by
  constructor
  · rfl
  · exact C4_insert_newcomer_wins _ _ _ (by rfl)

/-! ## Tile sweep: exit conditions, totality, and agreement with
`check_max_mem` -/

theorem run_tile_sweep_post : ∀ (n : Nat) (s s' : TileCacheState),
    run_tile_sweep n s = some s' →
    s'.max_memory_bytes = s.max_memory_bytes ∧
      (s'.mem_used < s'.max_memory_bytes ∨ (s'.prev = [] ∧ s'.next = [])) := by
  intro n
  induction n with
  | zero => intro s s' h; simp [run_tile_sweep] at h
  | succ n ih =>
    intro s s' h
    rw [run_tile_sweep] at h
    by_cases hm : s.mem_used < s.max_memory_bytes
    · rw [if_pos hm] at h
      cases h
      exact ⟨rfl, Or.inl hm⟩
    · rw [if_neg hm] at h
      rcases hn : s.next with _ | ⟨e, rest⟩
      · rcases hp : s.prev with _ | ⟨p, ps⟩
        · rw [hn, hp] at h
          simp at h
          cases h
          exact ⟨rfl, Or.inr ⟨hp, hn⟩⟩
        · rw [hn, hp] at h
          simp only at h
          by_cases hu : p.2.used
          · rw [if_pos hu] at h
            have hres := ih _ _ h
            exact hres
          · rw [if_neg hu] at h
            have hres := ih _ _ h
            exact hres
      · rw [hn] at h
        simp only at h
        by_cases hu : e.2.used
        · rw [if_pos hu] at h
          have hres := ih _ _ h
          exact hres
        · rw [if_neg hu] at h
          have hres := ih _ _ h
          exact hres

theorem run_tile_sweep_eq : ∀ (n : Nat) (s s' : TileCacheState),
    run_tile_sweep n s = some s' → check_max_mem s = s' := by
  intro n
  induction n with
  | zero => intro s s' h; simp [run_tile_sweep] at h
  | succ n ih =>
    intro s s' h
    rw [run_tile_sweep] at h
    rw [check_max_mem]
    by_cases hm : s.mem_used < s.max_memory_bytes
    · rw [if_pos hm] at h ⊢
      cases h
      rfl
    · rw [if_neg hm] at h ⊢
      rcases hn : s.next with _ | ⟨e, rest⟩
      · rcases hp : s.prev with _ | ⟨p, ps⟩
        · rw [hn, hp] at h
          simp at h
          cases h
          rfl
        · rw [hn, hp] at h
          simp only at h ⊢
          by_cases hu : p.2.used
          · rw [if_pos hu] at h ⊢
            have hres := ih _ _ h
            exact hres
          · rw [if_neg hu] at h ⊢
            have hres := ih _ _ h
            exact hres
      · rw [hn] at h
        simp only at h ⊢
        by_cases hu : e.2.used
        · rw [if_pos hu] at h ⊢
          have hres := ih _ _ h
          exact hres
        · rw [if_neg hu] at h ⊢
          have hres := ih _ _ h
          exact hres

theorem run_tile_sweep_total_aux :
    ∀ (M : Nat) (s : TileCacheState), tc_weight s = M →
      ∃ n s', run_tile_sweep n s = some s' := by
  intro M
  induction M using Nat.strong_induction_on with
  | _ M ih =>
    intro s hM
    by_cases hm : s.mem_used < s.max_memory_bytes
    · exact ⟨1, s, by rw [run_tile_sweep, if_pos hm]⟩
    · rcases hn : s.next with _ | ⟨e, rest⟩
      · rcases hp : s.prev with _ | ⟨p, ps⟩
        · exact ⟨1, s, by rw [run_tile_sweep, if_neg hm, hn, hp]⟩
        · by_cases hu : p.2.used
          · have hw : tc_weight ⟨[(p.1, tile_set_unused p.2)], ps, s.mem_used,
                s.max_memory_bytes⟩ < M := by
              rw [← hM]
              simp [tc_weight, tc_entries, tile_weight, tile_set_unused, hn, hp, hu]
            obtain ⟨n, s', hrun⟩ := ih _ hw _ rfl
            exact ⟨n + 1, s', by rw [run_tile_sweep, if_neg hm, hn, hp]; simpa [hu] using hrun⟩
          · have hw : tc_weight ⟨[], ps, s.mem_used - p.2.memsize,
                s.max_memory_bytes⟩ < M := by
              rw [← hM]
              simp [tc_weight, tc_entries, tile_weight, hn, hp]
            obtain ⟨n, s', hrun⟩ := ih _ hw _ rfl
            exact ⟨n + 1, s', by rw [run_tile_sweep, if_neg hm, hn, hp]; simpa [hu] using hrun⟩
      · by_cases hu : e.2.used
        · have hw : tc_weight ⟨s.prev ++ [(e.1, tile_set_unused e.2)], rest, s.mem_used,
              s.max_memory_bytes⟩ < M := by
            rw [← hM]
            simp [tc_weight, tc_entries, tile_weight, tile_set_unused, hn, hu]
          obtain ⟨n, s', hrun⟩ := ih _ hw _ rfl
          exact ⟨n + 1, s', by rw [run_tile_sweep, if_neg hm, hn]; simpa [hu] using hrun⟩
        · have hw : tc_weight ⟨s.prev, rest, s.mem_used - e.2.memsize,
              s.max_memory_bytes⟩ < M := by
            rw [← hM]
            simp [tc_weight, tc_entries, tile_weight, hn]
          obtain ⟨n, s', hrun⟩ := ih _ hw _ rfl
          exact ⟨n + 1, s', by rw [run_tile_sweep, if_neg hm, hn]; simpa [hu] using hrun⟩

theorem run_tile_sweep_total (s : TileCacheState) :
    ∃ n s', run_tile_sweep n s = some s' :=
  run_tile_sweep_total_aux (tc_weight s) s rfl

/-- `check_max_mem` exits only with the memory strictly under the ceiling
or with the tile table emptied. -/
theorem check_max_mem_post (s : TileCacheState) :
    (check_max_mem s).max_memory_bytes = s.max_memory_bytes ∧
      ((check_max_mem s).mem_used < (check_max_mem s).max_memory_bytes ∨
        ((check_max_mem s).prev = [] ∧ (check_max_mem s).next = [])) := by
  obtain ⟨n, s', hrun⟩ := run_tile_sweep_total s
  have heq := run_tile_sweep_eq _ _ _ hrun
  rw [heq]
  exact run_tile_sweep_post _ _ _ hrun

theorem tc_insert_mem (s : TileCacheState) (t : ICTile) :
    (tc_insert s t).mem_used = s.mem_used ∧
      (tc_insert s t).max_memory_bytes = s.max_memory_bytes := by
  unfold tc_insert
  split
  · exact ⟨rfl, rfl⟩
  · split
    · exact ⟨rfl, rfl⟩
    · exact ⟨rfl, rfl⟩

/-! ## C1 — resource ceilings at quiescent points -/

theorem run_file_sweep_post : ∀ (n : Nat) (s s' : FileSweepState),
    run_file_sweep n s = some s' →
    s'.max_open_files = s.max_open_files ∧
      (s'.open_files_current < s'.max_open_files ∨
        (s'.prev = [] ∧ s'.next = [])) := by
  intro n
  induction n with
  | zero => intro s s' h; simp [run_file_sweep] at h
  | succ n ih =>
    intro s s' h
    rw [run_file_sweep] at h
    by_cases hm : s.open_files_current < s.max_open_files
    · rw [if_pos hm] at h
      cases h
      exact ⟨rfl, Or.inl hm⟩
    · rw [if_neg hm] at h
      rcases hn : s.next with _ | ⟨f, rest⟩
      · rcases hp : s.prev with _ | ⟨p, ps⟩
        · rw [hn, hp] at h
          simp at h
          cases h
          exact ⟨rfl, Or.inr ⟨hp, hn⟩⟩
        · rw [hn, hp] at h
          simp only at h
          have hres := ih _ _ h
          exact hres
      · rw [hn] at h
        simp only at h
        have hres := ih _ _ h
        exact hres

/-- Claim C1, counterexample to the claim as stated: a 4 MB tile
inserted into an empty cache configured with a 1 MB byte ceiling
(`mem_used` already includes the new tile, as `incr_tiles` runs before
`add_tile_to_cache`).  The sweep finds the table empty and breaks, the
insertion completes, and at the quiescent point after the operation
returns the resident bytes exceed the ceiling. -/
theorem C1_counterexample :
    ¬ ((add_tile_to_cache ⟨[], [], 4194304, 1048576⟩
        ⟨⟨0, 0, 0, 0, 0⟩, true, true, 4194304, []⟩).mem_used ≤
      (add_tile_to_cache ⟨[], [], 4194304, 1048576⟩
        ⟨⟨0, 0, 0, 0, 0⟩, true, true, 4194304, []⟩).max_memory_bytes) := by
  rw [add_tile_to_cache, check_max_mem]
  norm_num [tc_insert]

/-- Claim C1 (amended): after `add_tile_to_cache` returns, either the
resident tile bytes are strictly below `m_max_memory_bytes`, or the
sweep emptied the table and the cache holds at most the just-inserted
tile (whose size may exceed the ceiling on its own); and whenever the
`check_max_files` loop exits, either the open-handle count is strictly
below `m_max_open_files` or the file table is empty. -/
theorem C1_ceilings_at_quiescence :
    (∀ (s : TileCacheState) (t : ICTile),
      (add_tile_to_cache s t).mem_used <
          (add_tile_to_cache s t).max_memory_bytes ∨
        (tc_entries (add_tile_to_cache s t)).length ≤ 1) ∧
    (∀ (n : Nat) (s s' : FileSweepState), run_file_sweep n s = some s' →
      s'.open_files_current < s'.max_open_files ∨
        (s'.prev = [] ∧ s'.next = [])) := by
  constructor
  · intro s t
    unfold add_tile_to_cache
    have hpost := check_max_mem_post s
    have hmem := tc_insert_mem (check_max_mem s) t
    rcases hpost.2 with hlt | ⟨hp, hn⟩
    · left
      rw [hmem.1, hmem.2]
      exact hlt
    · right
      unfold tc_insert
      rw [hp, hn]
      simp [tc_entries]
  · intro n s s' h
    exact (run_file_sweep_post n s s' h).2

/-- Witness for C1: the amended statement at a concrete post-eviction
state (tile side) and a concrete exiting sweep (file side). -/
theorem C1_ceilings_at_quiescence_witness :
    ((add_tile_to_cache ⟨[], [], 4194304, 1048576⟩
        ⟨⟨0, 0, 0, 0, 0⟩, true, true, 4194304, []⟩).mem_used <
        (add_tile_to_cache ⟨[], [], 4194304, 1048576⟩
          ⟨⟨0, 0, 0, 0, 0⟩, true, true, 4194304, []⟩).max_memory_bytes ∨
      (tc_entries (add_tile_to_cache ⟨[], [], 4194304, 1048576⟩
        ⟨⟨0, 0, 0, 0, 0⟩, true, true, 4194304, []⟩)).length ≤ 1) ∧
    (run_file_sweep 1 ⟨[], [], 0, 4⟩ = some ⟨[], [], 0, 4⟩ ∧
      ((⟨[], [], 0, 4⟩ : FileSweepState).open_files_current <
          (⟨[], [], 0, 4⟩ : FileSweepState).max_open_files ∨
        ((⟨[], [], 0, 4⟩ : FileSweepState).prev = [] ∧
          (⟨[], [], 0, 4⟩ : FileSweepState).next = []))) :=
  ⟨C1_ceilings_at_quiescence.1 ⟨[], [], 4194304, 1048576⟩
      ⟨⟨0, 0, 0, 0, 0⟩, true, true, 4194304, []⟩,
    by rw [run_file_sweep]; norm_num,
    C1_ceilings_at_quiescence.2 1 ⟨[], [], 0, 4⟩ ⟨[], [], 0, 4⟩
      (by rw [run_file_sweep]; norm_num)⟩

/-! ## C8 — termination of the two clock sweeps -/

theorem dist_to_open_le_length (l : List SweepFile) :
    dist_to_open l ≤ l.length := by
  induction l with
  | nil => simp [dist_to_open]
  | cons f r ih =>
    by_cases hf : f.opened
    · simp [dist_to_open, hf]
    · simp only [dist_to_open, hf, if_false, Bool.false_eq_true, List.length_cons]
      omega

theorem dist_to_open_append (l₁ l₂ : List SweepFile)
    (h : ∃ f ∈ l₁, f.opened = true) :
    dist_to_open (l₁ ++ l₂) = dist_to_open l₁ := by
  induction l₁ with
  | nil => simp at h
  | cons f r ih =>
    by_cases hf : f.opened
    · simp [dist_to_open, hf]
    · have hr : ∃ g ∈ r, g.opened = true := by
        rcases h with ⟨g, hg, hgo⟩
        rcases List.mem_cons.mp hg with rfl | hgr
        · exact absurd hgo (by simp [hf])
        · exact ⟨g, hgr, hgo⟩
      simp only [List.cons_append, dist_to_open, hf, if_false, Bool.false_eq_true]
      exact congrArg (fun k => k + 1) (ih hr)

/-- Releasing the visited record keeps the books straight: open records
in the rotated table plus the counter decrement equal the open records
before the step. -/
theorem sweep_release_count (f : SweepFile) (X : List SweepFile) :
    (((X ++ [(file_release f).1]).filter (fun g => g.opened)).length : Int) +
        (file_release f).2 =
      (((f :: X).filter (fun g => g.opened)).length : Int) := by
  unfold file_release
  by_cases hu : f.used
  · by_cases ho : f.opened <;>
      simp [hu, ho, List.filter_append, List.filter_cons]
  · by_cases ho : f.opened <;>
      simp [hu, ho, List.filter_append, List.filter_cons] <;> omega

/-- One iteration of the file sweep strictly decreases the combined
measure, provided some record in the table is open. -/
theorem sweep_step_measure (f : SweepFile) (X : List SweepFile)
    (hex : ∃ g ∈ f :: X, g.opened = true) :
    ((X ++ [(file_release f).1]).map file_weight).sum *
          ((X ++ [(file_release f).1]).length + 1) +
        dist_to_open (X ++ [(file_release f).1]) <
      ((f :: X).map file_weight).sum * ((f :: X).length + 1) +
        dist_to_open (f :: X) := by
  by_cases ho : f.opened
  · have hw : ((X ++ [(file_release f).1]).map file_weight).sum + 1 ≤
        ((f :: X).map file_weight).sum := by
      unfold file_release
      by_cases hu : f.used <;>
        simp [hu, ho, List.map_append, List.sum_append, file_weight] <;> omega
    have hd1 : dist_to_open (X ++ [(file_release f).1]) ≤
        (X ++ [(file_release f).1]).length := dist_to_open_le_length _
    have hlen : (X ++ [(file_release f).1]).length = X.length + 1 := by simp
    have hlen2 : (f :: X).length = X.length + 1 := by simp
    rw [hlen, hlen2]
    rw [hlen] at hd1
    have hmul : (((X ++ [(file_release f).1]).map file_weight).sum + 1) *
        (X.length + 1 + 1) ≤
        ((f :: X).map file_weight).sum * (X.length + 1 + 1) :=
      Nat.mul_le_mul_right _ hw
    have hexp : (((X ++ [(file_release f).1]).map file_weight).sum + 1) *
        (X.length + 1 + 1) =
        ((X ++ [(file_release f).1]).map file_weight).sum *
          (X.length + 1 + 1) + (X.length + 1 + 1) := by ring
    omega
  · have hrel1 : (file_release f).1.opened = false := by
      unfold file_release
      by_cases hu : f.used <;> simp [hu, ho]
    have hwf : file_weight f = 0 := by simp [file_weight, ho]
    have hwf1 : file_weight (file_release f).1 = 0 := by
      simp [file_weight, hrel1]
    have hwe : ((X ++ [(file_release f).1]).map file_weight).sum =
        ((f :: X).map file_weight).sum := by
      simp [List.map_append, List.sum_append, hwf, hwf1]
    have hexX : ∃ g ∈ X, g.opened = true := by
      rcases hex with ⟨g, hg, hgo⟩
      rcases List.mem_cons.mp hg with rfl | hgr
      · exact absurd hgo (by simp [ho])
      · exact ⟨g, hgr, hgo⟩
    have hdist : dist_to_open (X ++ [(file_release f).1]) = dist_to_open X :=
      dist_to_open_append X _ hexX
    have hdist2 : dist_to_open (f :: X) = dist_to_open X + 1 := by
      simp [dist_to_open, ho]
    have hlen : (X ++ [(file_release f).1]).length = X.length + 1 := by simp
    have hlen2 : (f :: X).length = X.length + 1 := by simp
    rw [hwe, hdist, hdist2, hlen, hlen2]
    omega

theorem run_file_sweep_total_aux : ∀ (M : Nat) (s : FileSweepState),
    fs_measure s = M →
    s.open_files_current < s.max_open_files + (fs_open_count s : Int) →
    ∃ n s', run_file_sweep n s = some s' := by
  intro M
  induction M using Nat.strong_induction_on with
  | _ M ih =>
    intro s hM H
    by_cases hdone : s.open_files_current < s.max_open_files
    · exact ⟨1, s, by rw [run_file_sweep, if_pos hdone]⟩
    · have hcnt : 1 ≤ fs_open_count s := by omega
      have hfilter : (fs_scan s).filter (fun g => g.opened) ≠ [] := by
        intro h0
        unfold fs_open_count at hcnt
        rw [h0] at hcnt
        simp at hcnt
      have hex : ∃ g ∈ fs_scan s, g.opened = true := by
        rcases List.exists_mem_of_ne_nil _ hfilter with ⟨g, hg⟩
        exact ⟨g, (List.mem_filter.mp hg).1, by
          simpa using (List.mem_filter.mp hg).2⟩
      rcases hn : s.next with _ | ⟨f, rest⟩
      · rcases hp : s.prev with _ | ⟨p, ps⟩
        · exfalso
          rcases hex with ⟨g, hg, _⟩
          rw [fs_scan, hn, hp] at hg
          simp at hg
        · have hscan : fs_scan s = p :: ps := by simp [fs_scan, hn, hp]
          have hscan1 : fs_scan (⟨[(file_release p).1], ps,
              s.open_files_current - (file_release p).2, s.max_open_files⟩ :
                FileSweepState) = ps ++ [(file_release p).1] := by
            simp [fs_scan]
          have hmlt : fs_measure (⟨[(file_release p).1], ps,
              s.open_files_current - (file_release p).2, s.max_open_files⟩ :
                FileSweepState) < M := by
            rw [← hM]
            unfold fs_measure
            rw [hscan, hscan1]
            exact sweep_step_measure p ps (by rw [hscan] at hex; exact hex)
          have H1 : (⟨[(file_release p).1], ps,
              s.open_files_current - (file_release p).2, s.max_open_files⟩ :
                FileSweepState).open_files_current <
              (⟨[(file_release p).1], ps,
                s.open_files_current - (file_release p).2, s.max_open_files⟩ :
                  FileSweepState).max_open_files +
              (fs_open_count (⟨[(file_release p).1], ps,
                s.open_files_current - (file_release p).2, s.max_open_files⟩ :
                  FileSweepState) : Int) := by
            have hc := sweep_release_count p ps
            unfold fs_open_count at H ⊢
            rw [hscan] at H
            rw [hscan1]
            dsimp only
            omega
          obtain ⟨n, s', hrun⟩ := ih _ hmlt _ rfl H1
          exact ⟨n + 1, s', by rw [run_file_sweep, if_neg hdone, hn, hp]; exact hrun⟩
      · have hscan : fs_scan s = f :: (rest ++ s.prev) := by simp [fs_scan, hn]
        have hscan1 : fs_scan (⟨s.prev ++ [(file_release f).1], rest,
            s.open_files_current - (file_release f).2, s.max_open_files⟩ :
              FileSweepState) = (rest ++ s.prev) ++ [(file_release f).1] := by
          simp [fs_scan]
        have hmlt : fs_measure (⟨s.prev ++ [(file_release f).1], rest,
            s.open_files_current - (file_release f).2, s.max_open_files⟩ :
              FileSweepState) < M := by
          rw [← hM]
          unfold fs_measure
          rw [hscan, hscan1]
          exact sweep_step_measure f (rest ++ s.prev) (by rw [hscan] at hex; exact hex)
        have H1 : (⟨s.prev ++ [(file_release f).1], rest,
            s.open_files_current - (file_release f).2, s.max_open_files⟩ :
              FileSweepState).open_files_current <
            (⟨s.prev ++ [(file_release f).1], rest,
              s.open_files_current - (file_release f).2, s.max_open_files⟩ :
                FileSweepState).max_open_files +
            (fs_open_count (⟨s.prev ++ [(file_release f).1], rest,
              s.open_files_current - (file_release f).2, s.max_open_files⟩ :
                FileSweepState) : Int) := by
          have hc := sweep_release_count f (rest ++ s.prev)
          unfold fs_open_count at H ⊢
          rw [hscan] at H
          rw [hscan1]
          dsimp only
          omega
        obtain ⟨n, s', hrun⟩ := ih _ hmlt _ rfl H1
        exact ⟨n + 1, s', by rw [run_file_sweep, if_neg hdone, hn]; exact hrun⟩

/-- The nonterminating shape of `check_max_files`: a single closed,
unused record in the table while the open-handle counter still reaches
the ceiling (the handle is held by a record not in the table — exactly
the situation of `find_file`, which counts the newly opened file before
inserting it).  Every release is a no-op and the loop spins forever. -/
theorem run_file_sweep_stuck (n : Nat) :
    run_file_sweep n ⟨[⟨false, false⟩], [], 1, 1⟩ = none := by
  induction n with
  | zero => rfl
  | succ n ih =>
    rw [run_file_sweep, if_neg (by norm_num)]
    simpa [file_release] using ih

/-- Claim C8, counterexample to the claim as stated: the
`check_max_files` clock sweep does *not* terminate for every cache
state.  With `max_open_files = 1`, one open handle counted (held by a
record not in the table) and a single closed, unused record in the
table, no amount of fuel makes the loop exit. -/
theorem C8_counterexample :
    ¬ ∃ n s', run_file_sweep n ⟨[⟨false, false⟩], [], 1, 1⟩ = some s' := by
  rintro ⟨n, s', h⟩
  rw [run_file_sweep_stuck n] at h
  cases h

/-- Claim C8 (amended): the tile-table clock sweep terminates for every
cache state (each iteration erases an unused entry or clears a used
flag, and it breaks when the table is empty).  The file-table sweep
terminates whenever closing every open handle of a tabled record would
bring the counter below the ceiling — i.e. when
`open_files_current < max_open_files + (open records in table)` — but
not for every cache state (see the counterexample). -/
theorem C8_sweeps_termination :
    (∀ s : TileCacheState, ∃ n s', run_tile_sweep n s = some s') ∧
    (∀ s : FileSweepState,
      s.open_files_current < s.max_open_files + (fs_open_count s : Int) →
      ∃ n s', run_file_sweep n s = some s') := by
  constructor
  · exact run_tile_sweep_total
  · intro s H
    exact run_file_sweep_total_aux (fs_measure s) s rfl H

/-- Witness for C8: both sweeps terminating from concrete states (a tile
state over the ceiling with one evictable tile; a file state at the
ceiling whose open tabled record can be closed). -/
theorem C8_sweeps_termination_witness :
    (∃ n s', run_tile_sweep n
      ⟨[], [(⟨0, 0, 0, 0, 0⟩, ⟨⟨0, 0, 0, 0, 0⟩, true, false, 6, []⟩)], 6, 4⟩ =
        some s') ∧
    (∃ n s', run_file_sweep n ⟨[], [⟨true, false⟩], 1, 1⟩ = some s') :=
  ⟨C8_sweeps_termination.1 _,
    C8_sweeps_termination.2 ⟨[], [⟨true, false⟩], 1, 1⟩ (by
      have : fs_open_count ⟨[], [⟨true, false⟩], 1, 1⟩ = 1 := rfl
      rw [this]
      norm_num)⟩

/-! ## C7 — failed tile reads: cache bookkeeping lemmas -/

theorem tc_lookup_mem {s : TileCacheState} {k : TileID} {t : ICTile}
    (h : tc_lookup s k = some t) : (k, t) ∈ tc_entries s := by
  unfold tc_lookup at h
  rcases hf : (tc_entries s).find? (fun e => e.1 = k) with _ | e
  · rw [hf] at h
    cases h
  · rw [hf] at h
    have hm := List.mem_of_find?_eq_some hf
    have hp := List.find?_some hf
    rcases e with ⟨k', t'⟩
    simp at hp h
    rw [← hp, ← h]
    exact hm

theorem tc_lookup_eq_none {s : TileCacheState} {k : TileID}
    (h : ∀ e ∈ tc_entries s, e.1 ≠ k) : tc_lookup s k = none := by
  unfold tc_lookup
  rw [List.find?_eq_none.mpr]
  · rfl
  · intro x hx
    simpa using h x hx

theorem set_unused_idem (t : ICTile) :
    tile_set_unused (tile_set_unused t) = tile_set_unused t := rfl

theorem descend_compose {A B C : List (TileID × ICTile)}
    (h1 : ∀ e ∈ B, e ∈ A ∨ ∃ e₀ ∈ A, e = (e₀.1, tile_set_unused e₀.2))
    (h2 : ∀ e ∈ C, e ∈ B ∨ ∃ e₀ ∈ B, e = (e₀.1, tile_set_unused e₀.2)) :
    ∀ e ∈ C, e ∈ A ∨ ∃ e₀ ∈ A, e = (e₀.1, tile_set_unused e₀.2) := by
  intro e he
  rcases h2 e he with hB | ⟨e₀, he₀, rfl⟩
  · exact h1 e hB
  · rcases h1 e₀ he₀ with hA | ⟨e₁, he₁, heq⟩
    · exact Or.inr ⟨e₀, hA, rfl⟩
    · refine Or.inr ⟨e₁, he₁, ?_⟩
      rw [heq, set_unused_idem]

theorem run_tile_sweep_entries : ∀ (n : Nat) (s s' : TileCacheState),
    run_tile_sweep n s = some s' →
    ∀ e ∈ tc_entries s', e ∈ tc_entries s ∨
      ∃ e₀ ∈ tc_entries s, e = (e₀.1, tile_set_unused e₀.2) := by
  intro n
  induction n with
  | zero => intro s s' h; simp [run_tile_sweep] at h
  | succ n ih =>
    intro s s' h
    rw [run_tile_sweep] at h
    by_cases hm : s.mem_used < s.max_memory_bytes
    · rw [if_pos hm] at h
      cases h
      exact fun e he => Or.inl he
    · rw [if_neg hm] at h
      rcases hn : s.next with _ | ⟨e₁, rest⟩
      · rcases hp : s.prev with _ | ⟨p, ps⟩
        · rw [hn, hp] at h
          simp at h
          cases h
          exact fun e he => Or.inl he
        · rw [hn, hp] at h
          simp only at h
          by_cases hu : p.2.used
          · rw [if_pos hu] at h
            refine descend_compose ?_ (ih _ _ h)
            intro e he
            simp only [tc_entries, hn, hp, List.append_nil] at he ⊢
            rcases List.mem_append.mp he with he' | he'
            · rcases List.mem_singleton.mp he' with rfl
              exact Or.inr ⟨p, List.mem_cons_self _ _, rfl⟩
            · exact Or.inl (List.mem_cons_of_mem _ he')
          · rw [if_neg hu] at h
            refine descend_compose ?_ (ih _ _ h)
            intro e he
            simp only [tc_entries, hn, hp, List.append_nil, List.nil_append] at he ⊢
            exact Or.inl (List.mem_cons_of_mem _ he)
      · rw [hn] at h
        simp only at h
        by_cases hu : e₁.2.used
        · rw [if_pos hu] at h
          refine descend_compose ?_ (ih _ _ h)
          intro e he
          simp only [tc_entries, hn] at he ⊢
          rcases List.mem_append.mp he with he' | he'
          · rcases List.mem_append.mp he' with he'' | he''
            · exact Or.inl (List.mem_append.mpr (Or.inl he''))
            · rcases List.mem_singleton.mp he'' with rfl
              exact Or.inr ⟨e₁, List.mem_append.mpr (Or.inr (List.mem_cons_self _ _)), rfl⟩
          · exact Or.inl (List.mem_append.mpr (Or.inr (List.mem_cons_of_mem _ he')))
        · rw [if_neg hu] at h
          refine descend_compose ?_ (ih _ _ h)
          intro e he
          simp only [tc_entries, hn] at he ⊢
          rcases List.mem_append.mp he with he' | he'
          · exact Or.inl (List.mem_append.mpr (Or.inl he'))
          · exact Or.inl (List.mem_append.mpr (Or.inr (List.mem_cons_of_mem _ he')))

theorem check_max_mem_entries (s : TileCacheState) :
    ∀ e ∈ tc_entries (check_max_mem s), e ∈ tc_entries s ∨
      ∃ e₀ ∈ tc_entries s, e = (e₀.1, tile_set_unused e₀.2) := by
  obtain ⟨n, s', hrun⟩ := run_tile_sweep_total s
  rw [run_tile_sweep_eq _ _ _ hrun]
  exact run_tile_sweep_entries n s s' hrun

theorem assoc_replace_mem {m : List (TileID × ICTile)} {k : TileID}
    {t : ICTile} : ∀ e ∈ assoc_replace m k t, e ∈ m ∨ e = (k, t) := by
  induction m with
  | nil => intro e he; simp [assoc_replace] at he
  | cons e₁ rest ih =>
    intro e he
    unfold assoc_replace at he
    by_cases h1 : e₁.1 = k
    · rw [if_pos h1] at he
      rcases List.mem_cons.mp he with rfl | he'
      · exact Or.inr rfl
      · exact Or.inl (List.mem_cons_of_mem _ he')
    · rw [if_neg h1] at he
      rcases List.mem_cons.mp he with rfl | he'
      · exact Or.inl (List.mem_cons_self _ _)
      · rcases ih e he' with hin | rfl
        · exact Or.inl (List.mem_cons_of_mem _ hin)
        · exact Or.inr rfl

theorem tc_insert_entries (s : TileCacheState) (t : ICTile) :
    ∀ e ∈ tc_entries (tc_insert s t), e ∈ tc_entries s ∨ e = (t.id, t) := by
  intro e he
  unfold tc_insert at he
  by_cases h1 : s.prev.any (fun e => e.1 = t.id)
  · rw [if_pos h1] at he
    simp only [tc_entries] at he ⊢
    rcases List.mem_append.mp he with he' | he'
    · rcases assoc_replace_mem e he' with hin | rfl
      · exact Or.inl (List.mem_append.mpr (Or.inl hin))
      · exact Or.inr rfl
    · exact Or.inl (List.mem_append.mpr (Or.inr he'))
  · rw [if_neg h1] at he
    by_cases h2 : s.next.any (fun e => e.1 = t.id)
    · rw [if_pos h2] at he
      simp only [tc_entries] at he ⊢
      rcases List.mem_append.mp he with he' | he'
      · exact Or.inl (List.mem_append.mpr (Or.inl he'))
      · rcases assoc_replace_mem e he' with hin | rfl
        · exact Or.inl (List.mem_append.mpr (Or.inr hin))
        · exact Or.inr rfl
    · rw [if_neg h2] at he
      simp only [tc_entries] at he ⊢
      rcases List.mem_append.mp he with he' | he'
      · exact Or.inl (List.mem_append.mpr (Or.inl he'))
      · rcases List.mem_append.mp he' with he'' | he''
        · exact Or.inl (List.mem_append.mpr (Or.inr he''))
        · rcases List.mem_singleton.mp he'' with rfl
          exact Or.inr rfl

theorem tc_touch_entries (s : TileCacheState) (k : TileID) :
    ∀ e ∈ tc_entries (tc_touch s k), ∃ e₀ ∈ tc_entries s,
      e.1 = e₀.1 ∧ (e.2 = e₀.2 ∨ e.2 = { e₀.2 with used := true }) := by
  intro e he
  unfold tc_touch at he
  simp only [tc_entries, ← List.map_append] at he
  rcases List.mem_map.mp he with ⟨e₀, he₀, heq⟩
  refine ⟨e₀, he₀, ?_⟩
  by_cases h1 : e₀.1 = k
  · rw [if_pos h1] at heq
    rw [← heq]
    exact ⟨rfl, Or.inr rfl⟩
  · rw [if_neg h1] at heq
    rw [← heq]
    exact ⟨rfl, Or.inl rfl⟩

theorem tile_zero_set_unused {t : ICTile} (h : tile_zero t) :
    tile_zero (tile_set_unused t) := h

theorem tile_zero_set_used {t : ICTile} (h : tile_zero t) :
    tile_zero { t with used := true } := h

theorem tc_clean_check_max_mem {T : TileID} {s : TileCacheState}
    (h : tc_clean T s) : tc_clean T (check_max_mem s) := by
  intro e he
  rcases check_max_mem_entries s e he with hin | ⟨e₀, he₀, rfl⟩
  · exact h e hin
  · rcases h e₀ he₀ with ⟨hid, hz⟩
    exact ⟨hid, fun hT => tile_zero_set_unused (hz hT)⟩

theorem tc_clean_touch {T : TileID} {s : TileCacheState} {k : TileID}
    (h : tc_clean T s) : tc_clean T (tc_touch s k) := by
  intro e he
  rcases tc_touch_entries s k e he with ⟨e₀, he₀, hkey, hval⟩
  rcases h e₀ he₀ with ⟨hid, hz⟩
  rcases hval with hv | hv
  · rw [hkey, hv]
    exact ⟨hid, hz⟩
  · constructor
    · rw [hkey, hv, ← hid]
    · intro hT
      rw [hv]
      exact tile_zero_set_used (hz (by rw [← hkey]; exact hT))

theorem tc_clean_insert {T : TileID} {s : TileCacheState} {t : ICTile}
    (h : tc_clean T s) (ht : t.id = T → tile_zero t) :
    tc_clean T (tc_insert s t) := by
  intro e he
  rcases tc_insert_entries s t e he with hin | rfl
  · exact h e hin
  · exact ⟨rfl, ht⟩

theorem tc_clean_mem_bump {T : TileID} {s : TileCacheState} {m : Nat}
    (h : tc_clean T s) : tc_clean T { s with mem_used := m } := h

theorem tc_noT_check_max_mem {T : TileID} {s : TileCacheState}
    (h : ∀ e ∈ tc_entries s, e.1 ≠ T) :
    ∀ e ∈ tc_entries (check_max_mem s), e.1 ≠ T := by
  intro e he
  rcases check_max_mem_entries s e he with hin | ⟨e₀, he₀, rfl⟩
  · exact h e hin
  · exact h e₀ he₀

theorem tc_noT_touch {T : TileID} {s : TileCacheState} {k : TileID}
    (h : ∀ e ∈ tc_entries s, e.1 ≠ T) :
    ∀ e ∈ tc_entries (tc_touch s k), e.1 ≠ T := by
  intro e he
  rcases tc_touch_entries s k e he with ⟨e₀, he₀, hkey, _⟩
  rw [hkey]
  exact h e₀ he₀

theorem tc_noT_insert {T : TileID} {s : TileCacheState} {t : ICTile}
    (h : ∀ e ∈ tc_entries s, e.1 ≠ T) (ht : t.id ≠ T) :
    ∀ e ∈ tc_entries (tc_insert s t), e.1 ≠ T := by
  intro e he
  rcases tc_insert_entries s t e he with hin | rfl
  · exact h e hin
  · exact ht

/-! New-tile construction facts (`ImageCacheTile::ImageCacheTile`). -/

theorem new_tile_id (f : CacheFile) (reader : ReadOracle) (tid : TileID) :
    (new_tile f reader tid).id = tid := by
  unfold new_tile
  rcases reader tid with _ | pix <;> rfl

theorem new_tile_fail {f : CacheFile} {reader : ReadOracle} {tid : TileID}
    (h : reader tid = none) :
    (new_tile f reader tid).valid = false ∧
      (new_tile f reader tid).used = false ∧
      (new_tile f reader tid).memsize = tile_samples (f.spec tid.subimage) ∧
      (new_tile f reader tid).pixels =
        List.replicate (tile_samples (f.spec tid.subimage)) 0 := by
  unfold new_tile
  rw [h]
  exact ⟨rfl, rfl, rfl, rfl⟩

theorem new_tile_fail_zero {f : CacheFile} {reader : ReadOracle} {tid : TileID}
    (h : reader tid = none) : tile_zero (new_tile f reader tid) := by
  refine ⟨(new_tile_fail h).1, ?_⟩
  rw [(new_tile_fail h).2.2.2]
  intro v hv
  exact List.eq_of_mem_replicate hv

/-- The post-state tile cache and thread tile of `find_tile_main_cache`,
together with the facts the C7 invariant needs. -/
theorem find_tile_main_props (f : CacheFile) (reader : ReadOracle)
    (T tid : TileID) (es : EngineState) (hT : reader T = none)
    (hc : es_clean T es) :
    tc_clean T (find_tile_main_cache f reader tid es).2.2.tc ∧
      (find_tile_main_cache f reader tid es).2.1.id = tid ∧
      (tid = T → tile_zero (find_tile_main_cache f reader tid es).2.1) ∧
      (find_tile_main_cache f reader tid es).2.2.microtile = es.microtile ∧
      (find_tile_main_cache f reader tid es).2.2.microlast = es.microlast := by
  unfold find_tile_main_cache
  rcases hl : tc_lookup es.tc tid with _ | t
  · dsimp only
    have hzero : tid = T → tile_zero (new_tile f reader tid) := by
      intro hTid
      subst hTid
      exact new_tile_fail_zero hT
    refine ⟨?_, new_tile_id f reader tid, hzero, rfl, rfl⟩
    unfold add_tile_to_cache
    refine tc_clean_insert (tc_clean_check_max_mem (tc_clean_mem_bump hc.1)) ?_
    rw [new_tile_id f reader tid]
    exact hzero
  · dsimp only
    have hmem := tc_lookup_mem hl
    rcases hc.1 (tid, t) hmem with ⟨hid, hz⟩
    exact ⟨tc_clean_touch hc.1, hid, fun hTid => tile_zero_set_used (hz hTid),
      rfl, rfl⟩

/-- `find_tile` preserves the "no valid data for `T`" invariant and
leaves the fetched tile (with the requested id) in the thread's current
slot; when the fetch was for `T` itself that tile is invalid and
all-zero. -/
theorem find_tile_props (f : CacheFile) (reader : ReadOracle) (T tid : TileID)
    (es : EngineState) (hT : reader T = none) (hc : es_clean T es) :
    es_clean T (find_tile f reader tid es).2 ∧
      ∃ nt, (find_tile f reader tid es).2.microtile = some nt ∧ nt.id = tid ∧
        (tid = T → tile_zero nt) := by
  have hmain := find_tile_main_props f reader T tid es hT hc
  rcases hfm : find_tile_main_cache f reader tid es with ⟨ok, nt, es'⟩
  rw [hfm] at hmain
  dsimp only at hmain
  have hnewclean : micro_clean T (some nt) := by
    intro u hu hidT
    cases hu
    exact hmain.2.2.1 (by rw [← hidT, hmain.2.1])
  have holdclean : micro_clean T es.microtile := hc.2.1
  unfold find_tile
  rw [hfm]
  rcases hmt : es.microtile with _ | t
  · dsimp only
    exact ⟨⟨hmain.1, hnewclean, by rw [hmt] at holdclean; exact holdclean⟩,
      nt, rfl, hmain.2.1, hmain.2.2.1⟩
  · dsimp only
    by_cases hid : t.id = tid
    · rw [if_pos hid]
      refine ⟨hc, t, hmt, hid, ?_⟩
      intro hTid
      exact hc.2.1 t hmt (by rw [hid, hTid])
    · rw [if_neg hid]
      rcases hml : es.microlast with _ | lt
      · dsimp only
        exact ⟨⟨hmain.1, hnewclean, by rw [hmt] at holdclean; exact holdclean⟩,
          nt, rfl, hmain.2.1, hmain.2.2.1⟩
      · dsimp only
        by_cases hid2 : lt.id = tid
        · rw [if_pos hid2]
          refine ⟨⟨hc.1, ?_, ?_⟩, lt, rfl, hid2, ?_⟩
          · intro u hu hidT
            cases hu
            exact hc.2.2 lt hml hidT
          · intro u hu hidT
            cases hu
            exact hc.2.1 t hmt hidT
          · intro hTid
            exact hc.2.2 lt hml (by rw [hid2, hTid])
        · rw [if_neg hid2]
          exact ⟨⟨hmain.1, hnewclean, by rw [hmt] at holdclean; exact holdclean⟩,
            nt, rfl, hmain.2.1, hmain.2.2.1⟩

/-- A fetch for a tile id absent from both the table and the microcache,
whose read fails, reports failure (the creating fetch). -/
theorem find_tile_T_false (f : CacheFile) (reader : ReadOracle) (T : TileID)
    (es : EngineState) (hT : reader T = none) (hno : es_noT T es) :
    (find_tile f reader T es).1 = false := by
  have hl : tc_lookup es.tc T = none := tc_lookup_eq_none hno.1
  have hmain0 : (find_tile_main_cache f reader T es).1 = false := by
    unfold find_tile_main_cache
    rw [hl]
    dsimp only
    exact (new_tile_fail hT).1
  rcases hfm : find_tile_main_cache f reader T es with ⟨ok, nt, es'⟩
  rw [hfm] at hmain0
  dsimp only at hmain0
  unfold find_tile
  rw [hfm]
  rcases hmt : es.microtile with _ | t
  · dsimp only
    exact hmain0
  · dsimp only
    rw [if_neg (hno.2.1 t hmt)]
    rcases hml : es.microlast with _ | lt
    · dsimp only
      exact hmain0
    · dsimp only
      rw [if_neg (hno.2.2 lt hml)]
      exact hmain0

theorem find_tile_main_noT (f : CacheFile) (reader : ReadOracle)
    (T tid : TileID) (es : EngineState) (htid : tid ≠ T)
    (hno : ∀ e ∈ tc_entries es.tc, e.1 ≠ T) :
    ∀ e ∈ tc_entries (find_tile_main_cache f reader tid es).2.2.tc,
      e.1 ≠ T := by
  unfold find_tile_main_cache
  rcases hl : tc_lookup es.tc tid with _ | t
  · dsimp only
    unfold add_tile_to_cache
    refine tc_noT_insert (tc_noT_check_max_mem hno) ?_
    rw [new_tile_id]
    exact htid
  · dsimp only
    exact tc_noT_touch hno

/-- A fetch for a different tile id keeps `T` out of the engine state. -/
theorem find_tile_preserves_noT (f : CacheFile) (reader : ReadOracle)
    (T tid : TileID) (es : EngineState) (hT : reader T = none)
    (htid : tid ≠ T) (hc : es_clean T es) (hno : es_noT T es) :
    es_noT T (find_tile f reader tid es).2 := by
  have hmain := find_tile_main_props f reader T tid es hT hc
  have htcno := find_tile_main_noT f reader T tid es htid hno.1
  rcases hfm : find_tile_main_cache f reader tid es with ⟨ok, nt, es'⟩
  rw [hfm] at hmain htcno
  dsimp only at hmain htcno
  have hntno : micro_noT T (some nt) := by
    intro u hu
    cases hu
    rw [hmain.2.1]
    exact htid
  have holdno := hno.2.1
  unfold find_tile
  rw [hfm]
  rcases hmt : es.microtile with _ | t
  · dsimp only
    exact ⟨htcno, hntno, by rw [hmt] at holdno; exact holdno⟩
  · dsimp only
    by_cases hid : t.id = tid
    · rw [if_pos hid]
      exact hno
    · rw [if_neg hid]
      rcases hml : es.microlast with _ | lt
      · dsimp only
        exact ⟨htcno, hntno, by rw [hmt] at holdno; exact holdno⟩
      · dsimp only
        by_cases hid2 : lt.id = tid
        · rw [if_pos hid2]
          refine ⟨hno.1, ?_, ?_⟩
          · intro u hu
            cases hu
            exact hno.2.2 lt hml
          · intro u hu
            cases hu
            exact hno.2.1 t hmt
        · rw [if_neg hid2]
          exact ⟨htcno, hntno, by rw [hmt] at holdno; exact holdno⟩

theorem tile_data_zero {f : CacheFile} {t : ICTile} {x y z : Int}
    (hz : ∀ v ∈ t.pixels, v = 0) {pix : List Int}
    (h : tile_data f t x y z = some pix) : ∀ v ∈ pix, v = 0 := by
  simp only [tile_data] at h
  split at h
  · cases h
  · cases h
    intro v hv
    exact hz v (List.mem_of_mem_drop (List.mem_of_mem_take hv))

theorem get_pixels_loop_ok_false (f : CacheFile) (reader : ReadOracle)
    (sub : Int) : ∀ (coords : List (Int × Int × Int)) (es : EngineState)
    (out : List ((Int × Int × Int) × List Int)),
    (get_pixels_loop f reader sub coords es false out).1 = false := by
  intro coords
  induction coords with
  | nil => intro es out; rfl
  | cons c cs ih =>
    intro es out
    simp only [get_pixels_loop]
    rcases hstep : get_pixels_step f reader sub c es with ⟨okc, pix, es'⟩
    dsimp only
    rw [Bool.false_and]
    exact ih es' _

/-- Invariant preservation over the whole pixel loop: the engine keeps no
valid data for `T`, and every emitted pixel that lies in tile `T` is
zero-filled. -/
theorem get_pixels_loop_clean (f : CacheFile) (reader : ReadOracle)
    (sub : Int) (T : TileID) (hT : reader T = none) :
    ∀ (coords : List (Int × Int × Int)) (es : EngineState) (ok : Bool)
      (out : List ((Int × Int × Int) × List Int)),
    es_clean T es →
    (∀ p ∈ out, pixel_tile_id f sub p.1.2.2 p.1.2.1 p.1.1 = T →
      ∀ v ∈ p.2, v = 0) →
    es_clean T (get_pixels_loop f reader sub coords es ok out).2.2 ∧
      ∀ p ∈ (get_pixels_loop f reader sub coords es ok out).2.1,
        pixel_tile_id f sub p.1.2.2 p.1.2.1 p.1.1 = T → ∀ v ∈ p.2, v = 0 := by
  intro coords
  induction coords with
  | nil =>
    intro es ok out hc hout
    exact ⟨hc, hout⟩
  | cons c cs ih =>
    intro es ok out hc hout
    obtain ⟨hc', nt, hmtile, hntid, hntzero⟩ :=
      find_tile_props f reader T (pixel_tile_id f sub c.2.2 c.2.1 c.1) es hT hc
    rcases hft : find_tile f reader (pixel_tile_id f sub c.2.2 c.2.1 c.1) es
      with ⟨okc, es'⟩
    rw [hft] at hc' hmtile
    dsimp only at hc' hmtile
    have hstep : ∃ val, get_pixels_step f reader sub c es = (okc, val, es') ∧
        (pixel_tile_id f sub c.2.2 c.2.1 c.1 = T → ∀ v ∈ val, v = 0) := by
      unfold get_pixels_step
      dsimp only
      rw [hft]
      dsimp only
      rw [hmtile]
      dsimp only
      rcases htd : tile_data f nt c.2.2 c.2.1 c.1 with _ | pix
      · exact ⟨_, rfl, fun _ v hv => List.eq_of_mem_replicate hv⟩
      · exact ⟨pix, rfl, fun hTid => tile_data_zero (hntzero hTid).2 htd⟩
    obtain ⟨val, hstepeq, hvalzero⟩ := hstep
    simp only [get_pixels_loop]
    rw [hstepeq]
    dsimp only
    refine ih es' (ok && okc) (out ++ [(c, val)]) hc' ?_
    intro p hp hTid
    rcases List.mem_append.mp hp with hp1 | hp2
    · exact hout p hp1 hTid
    · rcases List.mem_singleton.mp hp2 with rfl
      exact hvalzero hTid

/-- If the region touches tile `T`, whose read fails and which is nowhere
in the engine state, the loop's accumulated success flag ends up false:
the creating fetch for `T` reports failure and the AND absorbs it. -/
theorem get_pixels_loop_false (f : CacheFile) (reader : ReadOracle)
    (sub : Int) (T : TileID) (hT : reader T = none) :
    ∀ (coords : List (Int × Int × Int)) (es : EngineState) (ok : Bool)
      (out : List ((Int × Int × Int) × List Int)),
    es_clean T es → es_noT T es →
    (∃ c ∈ coords, pixel_tile_id f sub c.2.2 c.2.1 c.1 = T) →
    (get_pixels_loop f reader sub coords es ok out).1 = false := by
  intro coords
  induction coords with
  | nil =>
    intro es ok out _ _ htouch
    rcases htouch with ⟨c, hcmem, _⟩
    simp at hcmem
  | cons c cs ih =>
    intro es ok out hclean hno htouch
    rcases hft : find_tile f reader (pixel_tile_id f sub c.2.2 c.2.1 c.1) es
      with ⟨okc, es'⟩
    have hstep : ∃ val, get_pixels_step f reader sub c es = (okc, val, es') := by
      unfold get_pixels_step
      dsimp only
      rw [hft]
      dsimp only
      rcases hmt2 : es'.microtile with _ | t
      · exact ⟨_, rfl⟩
      · dsimp only
        rcases htd2 : tile_data f t c.2.2 c.2.1 c.1 with _ | pix
        · exact ⟨_, rfl⟩
        · exact ⟨_, rfl⟩
    obtain ⟨val, hstepeq⟩ := hstep
    simp only [get_pixels_loop]
    rw [hstepeq]
    dsimp only
    by_cases hct : pixel_tile_id f sub c.2.2 c.2.1 c.1 = T
    · have hfalse : okc = false := by
        have hf : (find_tile f reader (pixel_tile_id f sub c.2.2 c.2.1 c.1) es).1
            = false := by
          rw [hct]
          exact find_tile_T_false f reader T es hT hno
        rw [hft] at hf
        exact hf
      rw [hfalse, Bool.and_false]
      exact get_pixels_loop_ok_false f reader sub cs es' _
    · have hclean' : es_clean T es' := by
        have hp := (find_tile_props f reader T
          (pixel_tile_id f sub c.2.2 c.2.1 c.1) es hT hclean).1
        rw [hft] at hp
        exact hp
      have hno' : es_noT T es' := by
        have hp := find_tile_preserves_noT f reader T
          (pixel_tile_id f sub c.2.2 c.2.1 c.1) es hT hct hclean hno
        rw [hft] at hp
        exact hp
      refine ih es' (ok && okc) _ hclean' hno' ?_
      rcases htouch with ⟨c₀, hc₀, hc₀T⟩
      rcases List.mem_cons.mp hc₀ with rfl | hc₀s
      · exact absurd hc₀T hct
      · exact ⟨c₀, hc₀s, hc₀T⟩

/-- Claim C7, counterexample to the claim as stated: a tile whose read
failed, already resident in the cache, *is* handed back as a successful
find by the main-cache hit path, which does not consult the validity
flag. -/
theorem C7_counterexample :
    (find_tile_main_cache ⟨7, [⟨0, 0, 0, 2, 2, 1, 1⟩]⟩ (fun _ => none)
        ⟨7, 0, 0, 0, 0⟩
        ⟨⟨[], [(⟨7, 0, 0, 0, 0⟩,
          ⟨⟨7, 0, 0, 0, 0⟩, false, false, 4, [0, 0, 0, 0]⟩)], 4, 100⟩,
          none, none⟩).1 = true ∧
    (find_tile_main_cache ⟨7, [⟨0, 0, 0, 2, 2, 1, 1⟩]⟩ (fun _ => none)
        ⟨7, 0, 0, 0, 0⟩
        ⟨⟨[], [(⟨7, 0, 0, 0, 0⟩,
          ⟨⟨7, 0, 0, 0, 0⟩, false, false, 4, [0, 0, 0, 0]⟩)], 4, 100⟩,
          none, none⟩).2.1.valid = false := by
  constructor <;> rfl

/-- Claim C7 (amended): a tile whose underlying read fails is constructed
with `valid = false`, its used flag cleared and its buffer and memory
size retained; `get_pixels` over a region touching such a tile (not yet
cached anywhere) zero-fills the affected pixels and returns false
overall on that call; but an already-cached failed tile *is* handed back
as a successful find by the main-cache hit path (the hit does not check
validity). -/
theorem C7_failed_tile_degrades :
    (∀ (f : CacheFile) (reader : ReadOracle) (tid : TileID),
      reader tid = none →
      (new_tile f reader tid).valid = false ∧
        (new_tile f reader tid).used = false ∧
        (new_tile f reader tid).memsize = tile_samples (f.spec tid.subimage) ∧
        (new_tile f reader tid).pixels.length =
          tile_samples (f.spec tid.subimage)) ∧
    (∀ (f : CacheFile) (reader : ReadOracle) (tid : TileID)
      (es : EngineState) (t : ICTile),
      tc_lookup es.tc tid = some t →
      (find_tile_main_cache f reader tid es).1 = true) ∧
    (∀ (f : CacheFile) (reader : ReadOracle) (sub : Int) (T : TileID)
      (xb xe yb ye zb ze : Int) (es : EngineState),
      reader T = none → es_clean T es → es_noT T es →
      (∃ c ∈ region_coords xb xe yb ye zb ze,
        pixel_tile_id f sub c.2.2 c.2.1 c.1 = T) →
      (get_pixels f reader sub xb xe yb ye zb ze es).1 = false ∧
        ∀ p ∈ (get_pixels f reader sub xb xe yb ye zb ze es).2.1,
          pixel_tile_id f sub p.1.2.2 p.1.2.1 p.1.1 = T →
          ∀ v ∈ p.2, v = 0) := by
  refine ⟨?_, ?_, ?_⟩
  · intro f reader tid h
    refine ⟨(new_tile_fail h).1, (new_tile_fail h).2.1, (new_tile_fail h).2.2.1, ?_⟩
    rw [(new_tile_fail h).2.2.2]
    simp
  · intro f reader tid es t hl
    unfold find_tile_main_cache
    rw [hl]
  · intro f reader sub T xb xe yb ye zb ze es hT hclean hno htouch
    constructor
    · exact get_pixels_loop_false f reader sub T hT _ es true [] hclean hno htouch
    · exact (get_pixels_loop_clean f reader sub T hT _ es true [] hclean
        (by intro p hp; simp at hp)).2

/-- Witness for C7: the `get_pixels` conjunct applied to a concrete 1×1
image whose only tile fails to read. -/
theorem C7_failed_tile_degrades_witness :
    (get_pixels ⟨7, [⟨0, 0, 0, 1, 1, 1, 1⟩]⟩ (fun _ => none) 0 0 1 0 1 0 1
      ⟨⟨[], [], 0, 100⟩, none, none⟩).1 = false :=
  (C7_failed_tile_degrades.2.2 ⟨7, [⟨0, 0, 0, 1, 1, 1, 1⟩]⟩ (fun _ => none) 0
    ⟨7, 0, 0, 0, 0⟩ 0 1 0 1 0 1 ⟨⟨[], [], 0, 100⟩, none, none⟩ rfl
    (by
      refine ⟨?_, ?_, ?_⟩
      · intro e he
        simp [tc_entries] at he
      · intro t ht
        cases ht
      · intro t ht
        cases ht)
    (by
      refine ⟨?_, ?_, ?_⟩
      · intro e he
        simp [tc_entries] at he
      · intro t ht
        cases ht
      · intro t ht
        cases ht)
    ⟨(0, 0, 0), by decide, by decide⟩).1

/-! ## C3 — fingerprint deduplication in `find_file` -/

theorem lookup_id_append_of_none {m : List (String × Nat)} {k : String}
    (h : lookup_id m k = none) (a : String) (i : Nat) :
    lookup_id (m ++ [(a, i)]) k = if a = k then some i else none := by
  unfold lookup_id at h ⊢
  have hf : m.find? (fun e => e.1 = k) = none := by
    rcases hm : m.find? (fun e => e.1 = k) with _ | e
    · exact hm
    · rw [hm] at h
      cases h
  rw [List.find?_append, hf]
  by_cases hak : a = k
  · simp [List.find?, hak]
  · simp [List.find?, hak]

theorem getD_append_length (l : List FRec) (x : FRec) :
    (l ++ [x]).getD l.length defFRec = x := by
  induction l with
  | nil => rfl
  | cons y ys ih => simpa [List.getD] using ih

theorem set_append_length (l : List FRec) (x y : FRec) :
    (l ++ [x]).set l.length y = l ++ [y] := by
  induction l with
  | nil => rfl
  | cons z zs ih => simp [List.set, ih]

theorem set_append_left (l : List FRec) (x y : FRec) :
    ∀ i, i < l.length → (l ++ [x]).set i y = l.set i y ++ [x] := by
  induction l with
  | nil => intro i hi; simp at hi
  | cons z zs ih =>
    intro i hi
    cases i with
    | zero => simp [List.set]
    | succ j =>
      simp only [List.cons_append, List.set]
      exact congrArg (fun l => z :: l) (ih j (by simpa using hi))

/-- `find_file`, hit path, in normal form. -/
theorem find_file_hit (st : FTState) (name : String) (mk : String → FRec)
    (i : Nat) (h : lookup_id st.by_name name = some i) :
    find_file st name mk =
      (some ((ft_get st i).duplicate.getD i),
        ft_use st ((ft_get st i).duplicate.getD i)) := by
  simp only [find_file, h]

/-- `find_file`, miss path, no fingerprint. -/
theorem find_file_miss_nofp (st : FTState) (name : String) (mk : String → FRec)
    (hname : lookup_id st.by_name name = none)
    (hfp : (mk name).fingerprint = none) :
    find_file st name mk =
      (some ((mk name).duplicate.getD st.files.length),
        ft_use ⟨st.files ++ [mk name], st.by_name ++ [(name, st.files.length)],
          st.by_fingerprint⟩ ((mk name).duplicate.getD st.files.length)) := by
  simp only [find_file, hname, hfp]

/-- `find_file`, miss path, fresh fingerprint: the newcomer is entered in
`by_fingerprint`. -/
theorem find_file_miss_newfp (st : FTState) (name : String)
    (mk : String → FRec) (fp : String)
    (hname : lookup_id st.by_name name = none)
    (hfp : (mk name).fingerprint = some fp)
    (hlook : lookup_id st.by_fingerprint fp = none) :
    find_file st name mk =
      (some ((mk name).duplicate.getD st.files.length),
        ft_use ⟨st.files ++ [mk name], st.by_name ++ [(name, st.files.length)],
          st.by_fingerprint ++ [(fp, st.files.length)]⟩
          ((mk name).duplicate.getD st.files.length)) := by
  simp only [find_file, hname, hfp, hlook]

/-- `find_file`, miss path, fingerprint already present with all the
wrap/datatype/cube/orientation fields matching: the newcomer becomes a
duplicate of the canonical record, its reader is closed, and the
fingerprint map is untouched. -/
theorem find_file_miss_dupmatch (st : FTState) (name : String)
    (mk : String → FRec) (fp : String) (d : Nat)
    (hname : lookup_id st.by_name name = none)
    (hfp : (mk name).fingerprint = some fp)
    (hlook : lookup_id st.by_fingerprint fp = some d)
    (hmatch : wrap_fields_match (mk name) (ft_get st d)) :
    find_file st name mk =
      (some d,
        ft_use ⟨st.files ++ [{ mk name with duplicate := some d, opened := false }],
          st.by_name ++ [(name, st.files.length)], st.by_fingerprint⟩ d) := by
  simp only [find_file, hname, hfp, hlook, if_pos hmatch]
  rfl

/-- `find_file`, miss path, fingerprint present but fields differ: both
maps keep their bindings; the newcomer is not entered in
`by_fingerprint` and is not marked a duplicate. -/
theorem find_file_miss_dupmismatch (st : FTState) (name : String)
    (mk : String → FRec) (fp : String) (d : Nat)
    (hname : lookup_id st.by_name name = none)
    (hfp : (mk name).fingerprint = some fp)
    (hlook : lookup_id st.by_fingerprint fp = some d)
    (hmatch : ¬ wrap_fields_match (mk name) (ft_get st d)) :
    find_file st name mk =
      (some ((mk name).duplicate.getD st.files.length),
        ft_use ⟨st.files ++ [mk name], st.by_name ++ [(name, st.files.length)],
          st.by_fingerprint⟩ ((mk name).duplicate.getD st.files.length)) := by
  simp only [find_file, hname, hfp, hlook, if_neg hmatch]

theorem ft_use_by_name (st : FTState) (i : Nat) :
    (ft_use st i).by_name = st.by_name := rfl

theorem ft_use_by_fingerprint (st : FTState) (i : Nat) :
    (ft_use st i).by_fingerprint = st.by_fingerprint := rfl

/-- Claim C3, counterexample to the claim as stated: when the newcomer's
fingerprint is already bound but the wrap fields differ (here `swrap`),
the newcomer (id 1) is *not* inserted into the fingerprint map — the map
is left exactly as it was. -/
theorem C3_counterexample :
    (find_file
        ⟨[{ defFRec with filename := "a", fingerprint := some "F" }],
          [("a", 0)], [("F", 0)]⟩ "b"
        (fun n => { defFRec with
          filename := n, fingerprint := some "F",
          swrap := 1 })).2.by_fingerprint = [("F", 0)] ∧
    (∀ e ∈ [(("F" : String), (0 : Nat))], e.2 ≠ 1) := by
  constructor
  · rfl
  · decide

/-- Claim C3 (amended): in `find_file`, when a newly opened record has a
non-empty fingerprint: if no record with that fingerprint exists, the
newcomer is inserted into the fingerprint map; if one exists and the
wrap modes, datatype, cube layout and y-up orientation all match, the
newcomer is marked as a duplicate of that canonical record and its
reader is closed, the fingerprint map unchanged; if one exists but any
of those fields differ, the fingerprint map is left unchanged and the
newcomer is *not* inserted (nor marked a duplicate).  Opening two files
with equal fingerprints and matching fields yields one canonical record
reachable from both names. -/
theorem C3_fingerprint_dedup :
    (∀ (st : FTState) (name : String) (mk : String → FRec) (fp : String),
      lookup_id st.by_name name = none →
      (mk name).fingerprint = some fp →
      lookup_id st.by_fingerprint fp = none →
      (find_file st name mk).2.by_fingerprint =
        st.by_fingerprint ++ [(fp, st.files.length)]) ∧
    (∀ (st : FTState) (name : String) (mk : String → FRec) (fp : String)
      (d : Nat),
      lookup_id st.by_name name = none →
      (mk name).fingerprint = some fp →
      lookup_id st.by_fingerprint fp = some d →
      wrap_fields_match (mk name) (ft_get st d) →
      d < st.files.length →
      (find_file st name mk).2.by_fingerprint = st.by_fingerprint ∧
        (find_file st name mk).2.files.getLast? =
          some { mk name with duplicate := some d, opened := false } ∧
        (find_file st name mk).1 = some d) ∧
    (∀ (st : FTState) (name : String) (mk : String → FRec) (fp : String)
      (d : Nat),
      lookup_id st.by_name name = none →
      (mk name).fingerprint = some fp →
      lookup_id st.by_fingerprint fp = some d →
      ¬ wrap_fields_match (mk name) (ft_get st d) →
      (mk name).duplicate = none →
      (find_file st name mk).2.by_fingerprint = st.by_fingerprint ∧
        (find_file st name mk).2.files.getLast? =
          some { mk name with used := true } ∧
        (find_file st name mk).1 = some st.files.length) ∧
    (∀ (st : FTState) (n1 n2 : String) (mk1 mk2 : String → FRec)
      (fp : String),
      lookup_id st.by_name n1 = none →
      (mk1 n1).fingerprint = some fp →
      lookup_id st.by_fingerprint fp = none →
      (mk1 n1).duplicate = none →
      lookup_id st.by_name n2 = none →
      n1 ≠ n2 →
      (mk2 n2).fingerprint = some fp →
      wrap_fields_match (mk2 n2) (mk1 n1) →
      (find_file (find_file st n1 mk1).2 n2 mk2).1 = (find_file st n1 mk1).1 ∧
        (find_file st n1 mk1).1 = some st.files.length) := by
  refine ⟨?_, ?_, ?_, ?_⟩
  · intro st name mk fp hname hfp hlook
    rw [find_file_miss_newfp st name mk fp hname hfp hlook]
    rfl
  · intro st name mk fp d hname hfp hlook hmatch hd
    rw [find_file_miss_dupmatch st name mk fp d hname hfp hlook hmatch]
    refine ⟨rfl, ?_, rfl⟩
    show ((st.files ++ [{ mk name with duplicate := some d, opened := false }]).set
      d _).getLast? = _
    rw [set_append_left _ _ _ d hd, List.getLast?_concat]
  · intro st name mk fp d hname hfp hlook hmatch hdup
    rw [find_file_miss_dupmismatch st name mk fp d hname hfp hlook hmatch]
    rw [hdup]
    refine ⟨rfl, ?_, rfl⟩
    show ((st.files ++ [mk name]).set st.files.length
      { (st.files ++ [mk name]).getD st.files.length defFRec with
        used := true }).getLast? = _
    rw [getD_append_length, set_append_length, List.getLast?_concat]
  · intro st n1 n2 mk1 mk2 fp h1 h2 h3 h4 h5 h6 h7 h8
    have hff1 := find_file_miss_newfp st n1 mk1 fp h1 h2 h3
    rw [h4] at hff1
    simp only [Option.getD_none] at hff1
    rw [hff1]
    dsimp only
    have hfiles : (ft_use ⟨st.files ++ [mk1 n1],
        st.by_name ++ [(n1, st.files.length)],
        st.by_fingerprint ++ [(fp, st.files.length)]⟩ st.files.length).files =
        st.files ++ [{ mk1 n1 with used := true }] := by
      show (st.files ++ [mk1 n1]).set st.files.length
        { (st.files ++ [mk1 n1]).getD st.files.length defFRec with
          used := true } = _
      rw [getD_append_length, set_append_length]
    have hname2 : lookup_id (ft_use ⟨st.files ++ [mk1 n1],
        st.by_name ++ [(n1, st.files.length)],
        st.by_fingerprint ++ [(fp, st.files.length)]⟩
          st.files.length).by_name n2 = none := by
      rw [ft_use_by_name]
      rw [lookup_id_append_of_none h5 n1 st.files.length]
      rw [if_neg h6]
    have hlook2 : lookup_id (ft_use ⟨st.files ++ [mk1 n1],
        st.by_name ++ [(n1, st.files.length)],
        st.by_fingerprint ++ [(fp, st.files.length)]⟩
          st.files.length).by_fingerprint fp = some st.files.length := by
      rw [ft_use_by_fingerprint]
      rw [lookup_id_append_of_none h3 fp st.files.length]
      rw [if_pos rfl]
    have hget : ft_get (ft_use ⟨st.files ++ [mk1 n1],
        st.by_name ++ [(n1, st.files.length)],
        st.by_fingerprint ++ [(fp, st.files.length)]⟩ st.files.length)
          st.files.length = { mk1 n1 with used := true } := by
      unfold ft_get
      rw [hfiles]
      exact getD_append_length st.files { mk1 n1 with used := true }
    have hmatch2 : wrap_fields_match (mk2 n2)
        (ft_get (ft_use ⟨st.files ++ [mk1 n1],
          st.by_name ++ [(n1, st.files.length)],
          st.by_fingerprint ++ [(fp, st.files.length)]⟩ st.files.length)
            st.files.length) := by
      rw [hget]
      exact h8
    rw [find_file_miss_dupmatch _ n2 mk2 fp st.files.length hname2 h7 hlook2
      hmatch2]
    exact ⟨rfl, rfl⟩

/-- Witness for C3: the duplicate-match case at a concrete table — the
canonical record (id 0) is returned for the second name. -/
theorem C3_fingerprint_dedup_witness :
    (find_file ⟨[{ defFRec with filename := "a", fingerprint := some "F" }],
        [("a", 0)], [("F", 0)]⟩ "b"
      (fun n => { defFRec with filename := n, fingerprint := some "F" })).1 =
      some 0 :=
  (C3_fingerprint_dedup.2.1
    ⟨[{ defFRec with filename := "a", fingerprint := some "F" }],
      [("a", 0)], [("F", 0)]⟩ "b"
    (fun n => { defFRec with filename := n, fingerprint := some "F" }) "F" 0
    (by decide) rfl (by decide) ⟨rfl, rfl, rfl, rfl, rfl⟩ (by decide)).2.2

/-! ## C6 — `broken` is monotonic per open attempt -/

theorem getD_set_used : ∀ (l : List FRec) (i : Nat), i < l.length →
    (l.set i { l.getD i defFRec with used := true }).getD i defFRec =
      { l.getD i defFRec with used := true } := by
  intro l
  induction l with
  | nil => intro i hi; simp at hi
  | cons x xs ih =>
    intro i hi
    cases i with
    | zero => rfl
    | succ j =>
      simp only [List.set, List.getD_cons_succ]
      exact ih j (by simpa using hi)

theorem ft_get_ft_use (st : FTState) (i : Nat) (hi : i < st.files.length) :
    ft_get (ft_use st i) i = { ft_get st i with used := true } := by
  unfold ft_use ft_get
  exact getD_set_used st.files i hi

theorem map_timesopened_set : ∀ (l : List FRec) (i : Nat),
    ((l.set i { l.getD i defFRec with used := true }).map
      (fun g => g.timesopened)) = l.map (fun g => g.timesopened) := by
  intro l
  induction l with
  | nil => intro i; rfl
  | cons x xs ih =>
    intro i
    cases i with
    | zero => rfl
    | succ j =>
      simp only [List.set, List.map_cons, List.getD_cons_succ]
      exact congrArg (fun r => x.timesopened :: r) (ih j)

theorem ft_use_map_timesopened (st : FTState) (i : Nat) :
    ((ft_use st i).files.map (fun g => g.timesopened)) =
      st.files.map (fun g => g.timesopened) := by
  unfold ft_use ft_get
  exact map_timesopened_set st.files i

/-- Claim C6 (as stated): a record that failed to open stays broken —
`open` fails again without constructing a new reader or touching the
record, the engine queries on a broken cached file surface the Broken
error, `get_image_info` on a broken file returns failure, and only
`invalidate` (with a subsequently successful reader open) clears the
flag. -/
theorem C6_broken_monotonic :
    (∀ (cfg : ICConfig) (orc : OpenResult) (f : FRec),
      f.broken = true → f.opened = false → fr_open cfg orc f = (false, f)) ∧
    (∀ (st : FTState) (name : String) (mk : String → FRec) (sub : Int)
      (i : Nat),
      lookup_id st.by_name name = some i →
      i < st.files.length →
      (ft_get st i).duplicate = none →
      (ft_get st i).broken = true →
      ic_get_imagespec st name sub mk = Except.error ICErr.brokenFile ∧
        ic_get_pixels_checks st name sub mk = Except.error ICErr.brokenFile) ∧
    (∀ (g : InfoFile), g.broken = true →
      ∀ (n : String) (t : TypeDesc), get_image_info g n t = none) ∧
    (∀ (cfg : ICConfig) (raw : List (Nat × Nat)) (untiled hastex : Bool)
      (fp : Option String) (sw tw dt cl : Nat) (yup : Bool) (f : FRec),
      (untiled = true → cfg.accept_untiled = true) →
      (fr_invalidate cfg
        (OpenResult.ok raw untiled hastex fp sw tw dt cl yup) f).broken =
        false) := by
  refine ⟨?_, ?_, ?_, ?_⟩
  · intro cfg orc f hbro hop
    simp [fr_open, hbro, hop]
  · intro st name mk sub i hname hi hdup hbro
    have hff := find_file_hit st name mk i hname
    rw [hdup] at hff
    simp only [Option.getD_none] at hff
    have hget : (ft_get (ft_use st i) i).broken = true := by
      rw [ft_get_ft_use st i hi]
      exact hbro
    constructor
    · unfold ic_get_imagespec
      rw [hff]
      dsimp only
      rw [if_pos hget]
    · unfold ic_get_pixels_checks
      rw [hff]
      dsimp only
      rw [if_pos hget]
  · intro g hbro n t
    simp [get_image_info, hbro]
  · intro cfg raw untiled hastex fp sw tw dt cl yup f husa
    by_cases hu : untiled = true
    · have ha := husa hu
      subst hu
      simp [fr_invalidate, fr_open, fr_close, ha]
    · have hu' : untiled = false := by
        rcases untiled with _ | _
        · rfl
        · exact absurd rfl hu
      subst hu'
      simp [fr_invalidate, fr_open, fr_close]

/-- Witness for C6: a concrete broken record refuses to re-open and is
reported Broken through the engine entry points; a concrete invalidate
with a successful re-open clears the flag. -/
theorem C6_broken_monotonic_witness :
    fr_open ⟨true, true⟩ OpenResult.createFail
      { defFRec with broken := true } =
      (false, { defFRec with broken := true }) ∧
    ic_get_imagespec
      ⟨[{ defFRec with filename := "bad.tif", broken := true }],
        [("bad.tif", 0)], []⟩ "bad.tif" 0 (fun n => { defFRec with
          filename := n }) = Except.error ICErr.brokenFile ∧
    (fr_invalidate ⟨true, true⟩
      (OpenResult.ok [(4, 4)] false false none 0 0 0 0 false)
      { defFRec with broken := true }).broken = false :=
  ⟨C6_broken_monotonic.1 ⟨true, true⟩ OpenResult.createFail
      { defFRec with broken := true } rfl rfl,
    (C6_broken_monotonic.2.1
      ⟨[{ defFRec with filename := "bad.tif", broken := true }],
        [("bad.tif", 0)], []⟩ "bad.tif" (fun n => { defFRec with
          filename := n }) 0 0 (by decide) (by decide) rfl rfl).1,
    C6_broken_monotonic.2.2.2 ⟨true, true⟩ [(4, 4)] false false none 0 0 0 0
      false { defFRec with broken := true } (fun h => by cases h)⟩

/-! ## C9 — `find_file` always yields a record; missing files are cached
as broken -/

theorem lookup_id_some_mem {m : List (String × Nat)} {k : String} {i : Nat}
    (h : lookup_id m k = some i) : ∃ e ∈ m, e.2 = i := by
  unfold lookup_id at h
  rcases hf : m.find? (fun e => e.1 = k) with _ | e
  · rw [hf] at h
    cases h
  · rw [hf] at h
    refine ⟨e, List.mem_of_find?_eq_some hf, ?_⟩
    cases h
    rfl

theorem find_file_isSome (st : FTState) (name : String) (mk : String → FRec) :
    ∃ i st', find_file st name mk = (some i, st') := by
  unfold find_file
  rcases lookup_id st.by_name name with _ | i
  · exact ⟨_, _, rfl⟩
  · exact ⟨_, _, rfl⟩

/-- Claim C9: `find_file` never returns null — every path yields a record
in the table (when no reader can be created, a broken record is still
created and cached) — so the NotFound branch of `get_imagespec` is
unreachable, a missing file surfaces as the Broken error, and a repeated
query for the same missing filename returns the same cached record
without another open attempt (every record's open count unchanged, for
any reader behavior on the second call). -/
theorem C9_find_file_nonnull :
    (∀ (st : FTState) (name : String) (mk : String → FRec),
      ft_wf st → (∀ n, (mk n).duplicate = none) →
      ∃ i, (find_file st name mk).1 = some i ∧
        i < (find_file st name mk).2.files.length) ∧
    (∀ (st : FTState) (name : String) (mk : String → FRec) (sub : Int),
      ic_get_imagespec st name sub mk ≠ Except.error ICErr.notFound) ∧
    (∀ (st : FTState) (name : String) (mk : String → FRec),
      lookup_id st.by_name name = none →
      (mk name).broken = true →
      (mk name).fingerprint = none →
      (mk name).duplicate = none →
      (find_file st name mk).1 = some st.files.length ∧
        (ft_get (find_file st name mk).2 st.files.length).broken = true ∧
        ∀ mk2 : String → FRec,
          (find_file (find_file st name mk).2 name mk2).1 =
            some st.files.length ∧
          ((find_file (find_file st name mk).2 name mk2).2.files.map
            (fun g => g.timesopened)) =
            ((find_file st name mk).2.files.map (fun g => g.timesopened))) := by
  refine ⟨?_, ?_, ?_⟩
  · intro st name mk hwf hmk
    rcases hname : lookup_id st.by_name name with _ | i
    · rcases hfp : (mk name).fingerprint with _ | fp
      · rw [find_file_miss_nofp st name mk hname hfp, hmk]
        simp only [Option.getD_none]
        refine ⟨st.files.length, rfl, ?_⟩
        simp [ft_use]
      · rcases hlook : lookup_id st.by_fingerprint fp with _ | d
        · rw [find_file_miss_newfp st name mk fp hname hfp hlook, hmk]
          simp only [Option.getD_none]
          refine ⟨st.files.length, rfl, ?_⟩
          simp [ft_use]
        · by_cases hmatch : wrap_fields_match (mk name) (ft_get st d)
          · rw [find_file_miss_dupmatch st name mk fp d hname hfp hlook hmatch]
            refine ⟨d, rfl, ?_⟩
            have hd : d < st.files.length := by
              rcases lookup_id_some_mem hlook with ⟨e, he, he2⟩
              rw [← he2]
              exact hwf.2.1 e he
            simp [ft_use]
            omega
          · rw [find_file_miss_dupmismatch st name mk fp d hname hfp hlook
              hmatch, hmk]
            simp only [Option.getD_none]
            refine ⟨st.files.length, rfl, ?_⟩
            simp [ft_use]
    · rw [find_file_hit st name mk i hname]
      have hi : i < st.files.length := by
        rcases lookup_id_some_mem hname with ⟨e, he, he2⟩
        rw [← he2]
        exact hwf.1 e he
      refine ⟨(ft_get st i).duplicate.getD i, rfl, ?_⟩
      have hj : (ft_get st i).duplicate.getD i < st.files.length := by
        rcases hd : (ft_get st i).duplicate with _ | d
        · simpa using hi
        · simp only [Option.getD_some]
          refine hwf.2.2 (ft_get st i) ?_ d hd
          unfold ft_get
          rw [List.getD_eq_getElem?_getD, List.getElem?_eq_getElem hi]
          exact List.getElem_mem hi
      simpa [ft_use] using hj
  · intro st name mk sub
    obtain ⟨i, st', hff⟩ := find_file_isSome st name mk
    unfold ic_get_imagespec
    rw [hff]
    dsimp only
    by_cases hb : (ft_get st' i).broken
    · rw [if_pos hb]
      simp
    · rw [if_neg hb]
      by_cases hr : sub < 0 ∨ (((ft_get st' i).specs.length : Int) ≤ sub)
      · rw [if_pos hr]
        simp
      · rw [if_neg hr]
        simp
  · intro st name mk hname hbro hfp hdup
    have hff := find_file_miss_nofp st name mk hname hfp
    rw [hdup] at hff
    simp only [Option.getD_none] at hff
    have hfiles : (find_file st name mk).2.files =
        st.files ++ [{ mk name with used := true }] := by
      rw [hff]
      show (st.files ++ [mk name]).set st.files.length
        { (st.files ++ [mk name]).getD st.files.length defFRec with
          used := true } = _
      rw [getD_append_length, set_append_length]
    have hget : ft_get (find_file st name mk).2 st.files.length =
        { mk name with used := true } := by
      unfold ft_get
      rw [hfiles]
      exact getD_append_length _ _
    refine ⟨by rw [hff], by rw [hget]; exact hbro, ?_⟩
    intro mk2
    have hname2 : lookup_id (find_file st name mk).2.by_name name =
        some st.files.length := by
      rw [hff, ft_use_by_name]
      rw [lookup_id_append_of_none hname name st.files.length, if_pos rfl]
    have hff2 := find_file_hit (find_file st name mk).2 name mk2
      st.files.length hname2
    rw [hget] at hff2
    have hdup2 : ({ mk name with used := true } : FRec).duplicate = none :=
      hdup
    rw [hdup2] at hff2
    simp only [Option.getD_none] at hff2
    rw [hff2]
    exact ⟨rfl, ft_use_map_timesopened _ _⟩

/-- Witness for C9: a concrete missing file — the reader cannot be
created, the broken record is cached under id 0, and a second lookup
returns the same record. -/
theorem C9_find_file_nonnull_witness :
    (find_file ⟨[], [], []⟩ "missing.tif"
      (fun n => { defFRec with filename := n, broken := true })).1 =
        some 0 ∧
    (ft_get (find_file ⟨[], [], []⟩ "missing.tif"
      (fun n => { defFRec with filename := n, broken := true })).2 0).broken =
        true :=
  ⟨(C9_find_file_nonnull.2.2 ⟨[], [], []⟩ "missing.tif"
      (fun n => { defFRec with filename := n, broken := true })
      rfl rfl rfl rfl).1,
    (C9_find_file_nonnull.2.2 ⟨[], [], []⟩ "missing.tif"
      (fun n => { defFRec with filename := n, broken := true })
      rfl rfl rfl rfl).2.1⟩

end ImageCacheProof
